import Mathlib

/-!
# Fuji EXR decoders: the geometric stages of `run_ssd` and the argument check of `duran-buades`

Shallow embedding of `src/fuji-exr-ssd/ssd.cpp` (`run_ssd`) and of
`src/DB_demosaicking_code/duran-buades.cpp` (`main`).

Conventions of the embedding.

* `float` and `double` values are elements of a linearly ordered field `K` with a floor
  function: `ℝ` for exact reasoning, `ℚ` for evaluation.  The rounding of arithmetic is not
  modelled; the one conversion that decides a branch on a command-line value, the narrowing
  `float beta = atof(argv[3])` of `duran-buades`, is modelled by `narrowToFloat`.
* `unsigned long` values are natural numbers.  Inside the loops every index is below the
  number of cells of the buffer it addresses and no subtraction goes below zero, so no
  wrap-around takes place; the one place where wrap-around decides the control flow, the cast
  `(unsigned)(height - 2)`, is modelled with its modulus.
* A block of memory is a function from cell offsets to values; what lies outside the
  allocated cells is whatever the initial function says.
* A loop is a left fold over `List.range`; the assignments of one iteration are a list of
  `(offset, value)` pairs executed left to right.
* Externals (`read_tiff_gray16_f32`, `sscanf`, `malloc`, `cfa_mask`, `ssd_demosaic_chain`,
  `sqrt`) are taken as parameters.
-/

namespace FujiExr

/-! ## Memory -/

/-- A block of cells addressed by offset from its base pointer. -/
abbrev Buffer (K : Type) := Nat → K

/-- The assignment `b[k] = v`. -/
def store {K : Type} (b : Buffer K) (k : Nat) (v : K) : Buffer K :=
  fun j => if j = k then v else b j

/-- A run of assignments, executed left to right. -/
def applyStores {K : Type} (b : Buffer K) (ws : List (Nat × K)) : Buffer K :=
  ws.foldl (fun acc w => store acc w.1 w.2) b

/-- The zero-setting loop `for (i = 0; i < n; i++) data_in[i] = 0;`. -/
def zeroFill {K : Type} [Zero K] (n : Nat) (b : Buffer K) : Buffer K :=
  (List.range n).foldl (fun acc i => store acc i 0) b

/-! ## Inputs and externals of `run_ssd` -/

/-- What `read_tiff_gray16_f32` hands back on success: the samples and `nx`, `ny`. -/
structure Plane (K : Type) where
  nx : Nat
  ny : Nat
  data : Buffer K

/-- The call `sscanf(args.geometry, "%lux%lu", &cfaWidth, &cfaHeight)`: its return value
and the contents of the two variables after it. -/
structure Scan where
  ret : Int
  cfaWidth : Nat
  cfaHeight : Nat

/-- The externals of `run_ssd`.  `malloc n` tells whether the allocation at source line `n`
succeeds; `memIn` and `memRot` are the contents of the fresh blocks `data_in` and
`data_rot`; `step` is the value of `sqrt(0.5)`. -/
structure Ext (K : Type) where
  malloc : Nat → Bool
  memIn : Buffer K
  memRot : Buffer K
  step : K
  cfa_mask : Nat → Nat → Nat → Nat → Nat → Nat
  ssd_demosaic_chain : Buffer K → Nat → Nat → Nat → Nat → (Nat → Nat) → Buffer K

/-- The reasons for which `run_ssd` calls `exit(EXIT_FAILURE)`. -/
inductive Failure where
  | geometryParse
  | readInput
  | planeSize
  | geometryFit
  | allocation
  deriving DecidableEq, Repr

/-- The variables of `run_ssd` that the merge loops update. -/
structure MergeState (K : Type) where
  data_in : Buffer K
  landscape : Bool

/-- The variables of `run_ssd` that are live after the input branch. -/
structure Merged (K : Type) where
  cfaWidth : Nat
  cfaHeight : Nat
  width : Nat
  height : Nat
  landscape : Bool
  data_in : Buffer K

/-! ## Frame merger, raw frames (ssd.cpp 343-433) -/

/-- The six assignments of one iteration of the raw merge loop (ssd.cpp 388-427). -/
def rawStores {K : Type} (cfaWidth cfaHeight width : Nat) (frame0 frame1 : Buffer K)
    (i : Nat) : List (Nat × K) :=
  if cfaWidth > cfaHeight then
    let x0 := i % cfaWidth + i / cfaWidth
    let x1 := x0 + 1
    let y := (cfaWidth - i % cfaWidth - 1) + i / cfaWidth
    [(y * width + x0, frame0 i),
     (y * width + x1, frame1 i),
     (y * width + x0 + width * width, frame0 i),
     (y * width + x1 + width * width, frame1 i),
     (y * width + x0 + width * width * 2, frame0 i),
     (y * width + x1 + width * width * 2, frame1 i)]
  else
    let x0 := cfaHeight - 1 + i % cfaWidth - i / cfaWidth
    let x1 := x0 + 1
    let y := i % cfaWidth + i / cfaWidth
    [(y * width + x0, frame0 i),
     (y * width + x1, frame1 i),
     (y * width + x0 + width * width, frame0 i),
     (y * width + x1 + width * width, frame1 i),
     (y * width + x0 + width * width * 2, frame0 i),
     (y * width + x1 + width * width * 2, frame1 i)]

/-- One iteration of the raw merge loop: the landscape branch also sets `landscape`. -/
def rawBody {K : Type} (cfaWidth cfaHeight width : Nat) (frame0 frame1 : Buffer K)
    (s : MergeState K) (i : Nat) : MergeState K :=
  { data_in := applyStores s.data_in (rawStores cfaWidth cfaHeight width frame0 frame1 i)
    landscape := if cfaWidth > cfaHeight then true else s.landscape }

/-- The raw merge loop `for (i = 0; i < cfaWidth * cfaHeight; i++)`. -/
def rawLoop {K : Type} (cfaWidth cfaHeight width : Nat) (frame0 frame1 : Buffer K)
    (s : MergeState K) : MergeState K :=
  (List.range (cfaWidth * cfaHeight)).foldl (rawBody cfaWidth cfaHeight width frame0 frame1) s

/-- Every assignment of the raw merge loop, in execution order. -/
def rawTrace {K : Type} (cfaWidth cfaHeight width : Nat) (frame0 frame1 : Buffer K) :
    List (Nat × K) :=
  (List.range (cfaWidth * cfaHeight)).flatMap (rawStores cfaWidth cfaHeight width frame0 frame1)

/-- The raw-frame branch of `run_ssd` (ssd.cpp 343-433), from the two reads to the end of
the merge loop. -/
def mergeRaw {K : Type} [Zero K] (ext : Ext K) (in0 in1 : Option (Plane K)) :
    Except Failure (Merged K) :=
  match in0 with
  | none => .error .readInput
  | some p0 =>
    match in1 with
    | none => .error .readInput
    | some p1 =>
      if p0.nx ≠ p1.nx ∨ p0.ny ≠ p1.ny then .error .planeSize
      else
        let cfaWidth := p0.nx
        let cfaHeight := p0.ny
        let width := cfaWidth + cfaHeight
        let height := cfaWidth + cfaHeight
        let landscape := if cfaWidth > cfaHeight then true else false
        if ext.malloc 374 = false then .error .allocation
        else
          let s := rawLoop cfaWidth cfaHeight width p0.data p1.data
            { data_in := zeroFill (width * width * 3) ext.memIn, landscape := landscape }
          .ok { cfaWidth := cfaWidth, cfaHeight := cfaHeight, width := width, height := height,
                landscape := s.landscape, data_in := s.data_in }

/-! ## Frame merger, pre-merged colour planes (ssd.cpp 224-341) -/

/-- The assignments of one iteration of the merged-input loop (ssd.cpp 286-336);
`frame0`, `frame1`, `frame2` are the red, green and blue input planes. -/
def mergedStores {K : Type} (cfaWidth cfaHeight width : Nat) (frame0 frame1 frame2 : Buffer K)
    (i : Nat) : List (Nat × K) :=
  if cfaWidth > cfaHeight then
    let x := i % cfaWidth + i / cfaWidth
    let y := (cfaWidth - i % cfaWidth - 1) + i / cfaWidth
    let rix := y * width + x
    let gix := y * width + x + width * width
    let bix := y * width + x + width * width * 2
    if y % 2 = 0 then
      [(gix, frame1 gix), (gix + 1, frame1 (gix + 1))]
    else
      if (x + y - 1) % 4 = 0 ∨ (x + y - 1) % 4 = 1 then
        [(rix, frame0 rix), (rix + 1, frame0 (rix + 1))]
      else
        [(bix, frame2 bix), (bix + 1, frame2 (bix + 1))]
  else
    let x0 := cfaHeight - 1 + i % cfaWidth - i / cfaWidth
    let x1 := x0 + 1
    let y := i % cfaWidth + i / cfaWidth
    [(y * width + x0, frame0 i),
     (y * width + x1, frame1 i),
     (y * width + x0 + width * width, frame0 i),
     (y * width + x1 + width * width, frame1 i),
     (y * width + x0 + width * width * 2, frame0 i),
     (y * width + x1 + width * width * 2, frame1 i)]

/-- The input plane that a read addresses: `0` is `frame0`, `1` is `frame1`, anything else
is `frame2`. -/
def inputPlane {K : Type} (frame0 frame1 frame2 : Buffer K) (c : Nat) : Buffer K :=
  if c = 0 then frame0 else if c = 1 then frame1 else frame2

/-- The reads of one iteration of the merged-input loop (ssd.cpp 286-336), in the order of
the assignments: the number of the input plane and the index used on it. -/
def mergedReads (cfaWidth cfaHeight width : Nat) (i : Nat) : List (Nat × Nat) :=
  if cfaWidth > cfaHeight then
    let x := i % cfaWidth + i / cfaWidth
    let y := (cfaWidth - i % cfaWidth - 1) + i / cfaWidth
    let rix := y * width + x
    let gix := y * width + x + width * width
    let bix := y * width + x + width * width * 2
    if y % 2 = 0 then
      [(1, gix), (1, gix + 1)]
    else
      if (x + y - 1) % 4 = 0 ∨ (x + y - 1) % 4 = 1 then
        [(0, rix), (0, rix + 1)]
      else
        [(2, bix), (2, bix + 1)]
  else
    [(0, i), (1, i), (0, i), (1, i), (0, i), (1, i)]

/-- One iteration of the merged-input loop: the landscape branch sets `landscape`. -/
def mergedBody {K : Type} (cfaWidth cfaHeight width : Nat) (frame0 frame1 frame2 : Buffer K)
    (s : MergeState K) (i : Nat) : MergeState K :=
  { data_in :=
      applyStores s.data_in (mergedStores cfaWidth cfaHeight width frame0 frame1 frame2 i)
    landscape := if cfaWidth > cfaHeight then true else s.landscape }

/-- The merged-input loop `for (i = 0; i < cfaWidth * cfaHeight; i++)`. -/
def mergedLoop {K : Type} (cfaWidth cfaHeight width : Nat) (frame0 frame1 frame2 : Buffer K)
    (s : MergeState K) : MergeState K :=
  (List.range (cfaWidth * cfaHeight)).foldl
    (mergedBody cfaWidth cfaHeight width frame0 frame1 frame2) s

/-- The `-m` branch of `run_ssd` (ssd.cpp 224-341), from `sscanf` to the end of the merge
loop.  `landscape` starts from its declaration `bool landscape = false`. -/
def mergeMerged {K : Type} [Zero K] (ext : Ext K) (geometry : Scan)
    (in0 in1 in2 : Option (Plane K)) : Except Failure (Merged K) :=
  if geometry.ret < 0 then .error .geometryParse
  else
    let cfaWidth := geometry.cfaWidth
    let cfaHeight := geometry.cfaHeight
    let width := cfaWidth + cfaHeight
    let height := cfaWidth + cfaHeight
    match in0 with
    | none => .error .readInput
    | some p0 =>
      match in1 with
      | none => .error .readInput
      | some p1 =>
        match in2 with
        | none => .error .readInput
        | some p2 =>
          if p0.nx ≠ p1.nx ∨ p0.nx ≠ p2.nx ∨ p1.nx ≠ p2.nx ∨
              p0.ny ≠ p1.ny ∨ p0.ny ≠ p2.ny ∨ p1.ny ≠ p2.ny then .error .planeSize
          else if p0.nx ≠ width then .error .geometryFit
          else if ext.malloc 268 = false then .error .allocation
          else if ext.malloc 272 = false then .error .allocation
          else
            let s := mergedLoop cfaWidth cfaHeight width p0.data p1.data p2.data
              { data_in := zeroFill (width * width * 3) ext.memIn, landscape := false }
            .ok { cfaWidth := cfaWidth, cfaHeight := cfaHeight, width := width,
                  height := height, landscape := s.landscape, data_in := s.data_in }

/-! ## Range clamper (ssd.cpp 466-475) -/

/-- The body of the clamping loop at cell `k`: two successive tests on the same cell. -/
def clampCell {K : Type} [LinearOrderedField K] (b : Buffer K) (k : Nat) : Buffer K :=
  let b1 := if 0 > b k then store b k 0 else b
  if 65535 < b1 k then store b1 k 65535 else b1

/-- The clamping loop over the `n` cells from `out_ptr` up to `end_ptr`. -/
def clampLoop {K : Type} [LinearOrderedField K] (n : Nat) (b : Buffer K) : Buffer K :=
  (List.range n).foldl clampCell b

/-! ## Derotation (ssd.cpp 484-543) -/

/-- The conversion of a non-negative value to `ushort`. -/
def toUshort (n : Nat) : Nat := n % 65536

/-- The value of `(unsigned)(n - 2)` for an `unsigned long` `n`. -/
def margin (n : Nat) : Nat := (n + 2 ^ 64 - 2) % 2 ^ 64 % 2 ^ 32

/-- The test `ur > (unsigned)(height - 2) || uc > (unsigned)(width - 2)` before `continue`. -/
def skipped (height width ur uc : Nat) : Bool :=
  decide (ur > margin height) || decide (uc > margin width)

/-- The offset `ur * width + uc + i * width * height` of the first stencil cell. -/
def stencilBase (width height ur uc i : Nat) : Nat :=
  ur * width + uc + i * width * height

/-- The four offsets of `data_out` that the stencil reads for plane `i`. -/
def stencil (width height ur uc i : Nat) : List Nat :=
  [stencilBase width height ur uc i,
   stencilBase width height ur uc i + 1,
   stencilBase width height ur uc i + width,
   stencilBase width height ur uc i + width + 1]

/-- The value stored by the stencil for plane `i`. -/
def interpolate {K : Type} [LinearOrderedField K] (data_out : Buffer K)
    (width height ur uc i : Nat) (fr fc : K) : K :=
  (1 - fr) * (
    (1 - fc) * data_out (stencilBase width height ur uc i)
    +
    fc * data_out (stencilBase width height ur uc i + 1))
  +
  fr * (
    (1 - fc) * data_out (stencilBase width height ur uc i + width)
    +
    fc * data_out (stencilBase width height ur uc i + width + 1))

/-- The source row `r = cfaWidth + (row - col) * step`. -/
def srcRow {K : Type} [LinearOrderedField K] (step : K) (cfaWidth row col : Nat) : K :=
  (cfaWidth : K) + ((row : K) - (col : K)) * step

/-- The source column `c = (row + col) * step`. -/
def srcCol {K : Type} [LinearOrderedField K] (step : K) (row col : Nat) : K :=
  ((row : K) + (col : K)) * step

/-- The assignments made for destination pixel `(row, col)`: none when the pixel is skipped,
one per colour plane otherwise.  The unsigned truncations `ur`, `uc` are natural-number
floors (`0` on a negative coordinate, where the conversion in C is not defined). -/
def derotStores {K : Type} [LinearOrderedField K] [FloorRing K] (step : K)
    (data_out : Buffer K) (cfaWidth width height rotWidth rotHeight row col : Nat) :
    List (Nat × K) :=
  let r := srcRow step cfaWidth row col
  let c := srcCol step row col
  let ur := ⌊r⌋₊
  let uc := ⌊c⌋₊
  if skipped height width ur uc = true then []
  else
    let fr := r - (ur : K)
    let fc := c - (uc : K)
    (List.range 3).map fun i =>
      (row * rotWidth + col + i * rotWidth * rotHeight,
       interpolate data_out width height ur uc i fr fc)

/-- The inner loop over `col` for one `row`. -/
def derotRow {K : Type} [LinearOrderedField K] [FloorRing K] (step : K)
    (data_out : Buffer K) (cfaWidth width height rotWidth rotHeight : Nat)
    (data_rot : Buffer K) (row : Nat) : Buffer K :=
  (List.range rotWidth).foldl
    (fun acc col =>
      applyStores acc
        (derotStores step data_out cfaWidth width height rotWidth rotHeight row col))
    data_rot

/-- The two nested loops of the derotation, starting from the contents of `data_rot`. -/
def derotate {K : Type} [LinearOrderedField K] [FloorRing K] (step : K)
    (data_out : Buffer K) (cfaWidth width height rotWidth rotHeight : Nat)
    (data_rot : Buffer K) : Buffer K :=
  (List.range rotHeight).foldl
    (derotRow step data_out cfaWidth width height rotWidth rotHeight) data_rot

/-- The width `rotWidth = cfaWidth / step` of the rotated image, stored in a `ushort`. -/
def rotWidthOf {K : Type} [LinearOrderedField K] [FloorRing K] (step : K)
    (cfaWidth : Nat) : Nat :=
  toUshort ⌊(cfaWidth : K) / step⌋₊

/-- The height `rotHeight = (height - cfaWidth) / step`, stored in a `ushort`. -/
def rotHeightOf {K : Type} [LinearOrderedField K] [FloorRing K] (step : K)
    (height cfaWidth : Nat) : Nat :=
  toUshort ⌊((height - cfaWidth : Nat) : K) / step⌋₊

/-- The arguments of the final call `write_tiff_rgb_f32(output_file, data_rot, rotWidth,
rotHeight)`. -/
structure Written (K : Type) where
  data_rot : Buffer K
  rotWidth : Nat
  rotHeight : Nat

/-- The common tail of `run_ssd` (ssd.cpp 436-550): demosaicking, clamping, derotation. -/
def finish {K : Type} [LinearOrderedField K] [FloorRing K] (ext : Ext K) (m : Merged K) :
    Except Failure (Written K) :=
  if ext.malloc 436 = false then .error .allocation
  else
    let mask := ext.cfa_mask m.width m.width m.cfaWidth m.cfaHeight
    let demosaicked := ext.ssd_demosaic_chain m.data_in m.width m.width
      (if m.landscape then m.cfaWidth else m.cfaHeight)
      (if m.landscape then m.cfaHeight else m.cfaWidth) mask
    let data_out := clampLoop (3 * m.width * m.width) demosaicked
    let rotWidth := rotWidthOf ext.step m.cfaWidth
    let rotHeight := rotHeightOf ext.step m.height m.cfaWidth
    if ext.malloc 497 = false then .error .allocation
    else
      .ok { data_rot := derotate ext.step data_out m.cfaWidth m.width m.height
              rotWidth rotHeight ext.memRot
            rotWidth := rotWidth
            rotHeight := rotHeight }

/-- The run on two raw frames: the `else` branch of `if (args.merged_cfa)` and the tail. -/
def run_ssd_raw {K : Type} [LinearOrderedField K] [FloorRing K] (ext : Ext K)
    (in0 in1 : Option (Plane K)) : Except Failure (Written K) :=
  match mergeRaw ext in0 in1 with
  | .error e => .error e
  | .ok m => finish ext m

/-- The run with the `-m` option: the `then` branch of `if (args.merged_cfa)` and the
tail. -/
def run_ssd_merged {K : Type} [LinearOrderedField K] [FloorRing K] (ext : Ext K)
    (geometry : Scan) (in0 in1 in2 : Option (Plane K)) : Except Failure (Written K) :=
  match mergeMerged ext geometry in0 in1 in2 with
  | .error e => .error e
  | .ok m => finish ext m

/-- The parsed command line `struct arg_ssd`, with each input file standing for what
`read_tiff_gray16_f32` returns on it (`none` for `NULL`) and the geometry string for what
`sscanf` makes of it. -/
structure Args (K : Type) where
  merged_cfa : Bool
  geometry : Scan
  input_file_0 : Option (Plane K)
  input_file_1 : Option (Plane K)
  input_file_2 : Option (Plane K)

/-- The function `run_ssd` after argument parsing: an error is `exit(EXIT_FAILURE)`, a
value is what the writer receives before `exit(EXIT_SUCCESS)`. -/
def run_ssd {K : Type} [LinearOrderedField K] [FloorRing K] (ext : Ext K) (args : Args K) :
    Except Failure (Written K) :=
  if args.merged_cfa = true then
    run_ssd_merged ext args.geometry args.input_file_0 args.input_file_1 args.input_file_2
  else
    run_ssd_raw ext args.input_file_0 args.input_file_1

/-! ## `duran-buades`: `main` up to the demosaicking call (duran-buades.cpp 40-120) -/

/-- The arguments with which `main` calls `algorithm_chain`. -/
structure ChainCall (K : Type) where
  mosaicked : Buffer K
  beta : K
  h : K
  width : Nat
  height : Nat

/-- The integer nearest to `x`; when `x` lies half way between two integers, the even
one. -/
def roundHalfEven {K : Type} [LinearOrderedField K] [FloorRing K] (x : K) : ℤ :=
  if x - (⌊x⌋ : K) < 1 / 2 then ⌊x⌋
  else if 1 / 2 < x - (⌊x⌋ : K) then ⌊x⌋ + 1
  else if ⌊x⌋ % 2 = 0 then ⌊x⌋ else ⌊x⌋ + 1

/-- The exponent of the spacing of the `float` values around `x`: a `float` has 24
significant bits, so the spacing is `2^(e - 23)` for `2^e <= |x| < 2^(e + 1)`, and it is
`2^-149` throughout the subnormal range below `2^-126`. -/
def floatSpacingExp {K : Type} [LinearOrderedField K] [FloorRing K] (x : K) : ℤ :=
  max (Int.log 2 |x|) (-126) - 23

/-- The conversion of a `double` to `float`, as in `float beta = atof(argv[3])`: the
nearest multiple of the spacing, the one with the even significand on a tie.  A value
beyond the `float` range, which the conversion turns into an infinity, stays a finite value
of the same sign and of magnitude above `1`. -/
def narrowToFloat {K : Type} [LinearOrderedField K] [FloorRing K] (x : K) : K :=
  (roundHalfEven (x / 2 ^ floatSpacingExp x) : K) * 2 ^ floatSpacingExp x

/-- The function `main` from its start to the call of `algorithm_chain`: `argc`, the result
of `read_tiff_gray16_f32` and the `double` value `atof(argv[3])` are the inputs; the
variable `beta` is that value narrowed to `float`; an error is `return EXIT_FAILURE`. -/
def DuranBuades.main {K : Type} [LinearOrderedField K] [FloorRing K] (argc : Nat)
    (input : Option (Plane K)) (atofArgv3 : K) : Except Unit (ChainCall K) :=
  if argc < 4 then .error ()
  else
    match input with
    | none => .error ()
    | some img =>
      let beta := narrowToFloat atofArgv3
      if beta < 0 ∨ beta > 1 then .error ()
      else
        let h := if beta ≠ 0 then (310 * beta - 214) / 3 else 0
        .ok { mosaicked := img.data, beta := beta, h := h, width := img.nx, height := img.ny }

/-! ## The sites named by the specification -/

/-- The column `x0` that the specification gives for photosite `i`, with `a = i mod cfaWidth`
and `b = i div cfaWidth`: `a + b` when `cfaWidth > cfaHeight`, `cfaHeight - 1 + a - b`
otherwise. -/
def siteX0 (cfaWidth cfaHeight i : Nat) : Nat :=
  if cfaWidth > cfaHeight then i % cfaWidth + i / cfaWidth
  else cfaHeight - 1 + i % cfaWidth - i / cfaWidth

/-- The row `y` that the specification gives for photosite `i`: `cfaWidth - 1 - a + b` when
`cfaWidth > cfaHeight`, `a + b` otherwise. -/
def siteY (cfaWidth cfaHeight i : Nat) : Nat :=
  if cfaWidth > cfaHeight then cfaWidth - 1 - i % cfaWidth + i / cfaWidth
  else i % cfaWidth + i / cfaWidth

/-- The offset in a plane of the first cell of the site of photosite `i`. -/
def siteBase (cfaWidth cfaHeight i : Nat) : Nat :=
  siteY cfaWidth cfaHeight i * (cfaWidth + cfaHeight) + siteX0 cfaWidth cfaHeight i

/-- The clamp of the specification: `0` if `v < 0`, `65535` if `v > 65535`, else `v`. -/
def clampSpec {K : Type} [LinearOrderedField K] (v : K) : K :=
  if v < 0 then 0 else if v > 65535 then 65535 else v

/-- The cells of plane `p` of the working buffer that the raw merge loop assigns. -/
def rawWritten {K : Type} (cfaWidth cfaHeight : Nat) (frame0 frame1 : Buffer K) (p : Nat) :
    Finset Nat :=
  (((rawTrace cfaWidth cfaHeight (cfaWidth + cfaHeight) frame0 frame1).map Prod.fst).filter
    (fun k => p * ((cfaWidth + cfaHeight) * (cfaWidth + cfaHeight)) ≤ k ∧
      k < (p + 1) * ((cfaWidth + cfaHeight) * (cfaWidth + cfaHeight)))).toFinset

/-! ## Inputs for evaluation -/

/-- Externals for evaluation over `ℚ`: every allocation succeeds, fresh blocks hold `7` in
every cell, the mask is empty, the demosaicking engine hands its input back, and `step` is
the `double` nearest to the square root of one half. -/
def sampleExt : Ext ℚ :=
  { malloc := fun _ => true
    memIn := fun _ => 7
    memRot := fun _ => 7
    step := 6369051672525773 / 9007199254740992
    cfa_mask := fun _ _ _ _ _ => 0
    ssd_demosaic_chain := fun data _ _ _ _ _ => data }

/-- A plane of `nx` by `ny` samples, all equal to `v`. -/
def flatPlane (nx ny : Nat) (v : ℚ) : Plane ℚ :=
  { nx := nx, ny := ny, data := fun _ => v }

/-- The command line of a run on two raw frames that were both read; the fields that this
run never looks at are zero and `none`. -/
def rawArgs (p0 p1 : Plane ℚ) : Args ℚ :=
  { merged_cfa := false
    geometry := { ret := 0, cfaWidth := 0, cfaHeight := 0 }
    input_file_0 := some p0
    input_file_1 := some p1
    input_file_2 := none }

/-- The command line of a run with `-m`, the geometry `cfaWidth x cfaHeight` scanned in
full, and three planes that were read. -/
def mergedArgs (cfaWidth cfaHeight : Nat) (p0 p1 p2 : Plane ℚ) : Args ℚ :=
  { merged_cfa := true
    geometry := { ret := 2, cfaWidth := cfaWidth, cfaHeight := cfaHeight }
    input_file_0 := some p0
    input_file_1 := some p1
    input_file_2 := some p2 }

/-! ## Memory lemmas -/

theorem store_same {K : Type} (b : Buffer K) (k : Nat) (v : K) : store b k v k = v := by
  simp [store]

theorem store_other {K : Type} (b : Buffer K) {k j : Nat} (v : K) (h : j ≠ k) :
    store b k v j = b j := by
  simp [store, h]

theorem applyStores_nil {K : Type} (b : Buffer K) : applyStores b [] = b := rfl

theorem applyStores_cons {K : Type} (b : Buffer K) (w : Nat × K) (ws : List (Nat × K)) :
    applyStores b (w :: ws) = applyStores (store b w.1 w.2) ws := rfl

theorem applyStores_append {K : Type} (b : Buffer K) (us vs : List (Nat × K)) :
    applyStores b (us ++ vs) = applyStores (applyStores b us) vs := by
  simp [applyStores, List.foldl_append]

/-- A cell that no assignment of the run addresses keeps its value. -/
theorem applyStores_untouched {K : Type} (ws : List (Nat × K)) (b : Buffer K) (k : Nat)
    (h : k ∉ ws.map Prod.fst) : applyStores b ws k = b k := by
  induction ws generalizing b with
  | nil => rfl
  | cons w ws ih =>
    simp only [List.map_cons, List.mem_cons, not_or] at h
    rw [applyStores_cons, ih _ h.2, store_other _ _ h.1]

/-- When no cell is assigned twice, each assignment of the run is visible at the end. -/
theorem applyStores_written {K : Type} (ws : List (Nat × K)) (b : Buffer K)
    (hnd : (ws.map Prod.fst).Nodup) {k : Nat} {v : K} (hm : (k, v) ∈ ws) :
    applyStores b ws k = v := by
  induction ws generalizing b with
  | nil => cases hm
  | cons w ws ih =>
    simp only [List.map_cons, List.nodup_cons] at hnd
    rw [applyStores_cons]
    rcases List.mem_cons.1 hm with h | h
    · subst h
      rw [applyStores_untouched _ _ _ hnd.1, store_same]
    · exact ih _ hnd.2 h

theorem zeroFill_apply {K : Type} [Zero K] (n : Nat) (b : Buffer K) (k : Nat) :
    zeroFill n b k = if k < n then 0 else b k := by
  induction n with
  | zero => simp [zeroFill]
  | succ n ih =>
    have hstep : zeroFill (n + 1) b = store (zeroFill n b) n 0 := by
      simp [zeroFill, List.range_succ, List.foldl_append]
    rw [hstep]
    by_cases hk : k = n
    · subst hk
      simp [store_same]
    · rw [store_other _ _ hk, ih]
      by_cases h1 : k < n
      · have h2 : k < n + 1 := by omega
        simp [h1, h2]
      · have h2 : ¬ k < n + 1 := by omega
        simp [h1, h2]

/-! ## Index arithmetic -/

/-- A row-major offset determines its row and column. -/
theorem offset_inj {w x y x' y' : Nat} (hx : x < w) (hx' : x' < w)
    (h : y * w + x = y' * w + x') : y = y' ∧ x = x' := by
  have hy : (y * w + x) / w = y := by
    rw [Nat.add_comm, Nat.add_mul_div_right _ _ (by omega : 0 < w), Nat.div_eq_of_lt hx,
      Nat.zero_add]
  have hy' : (y' * w + x') / w = y' := by
    rw [Nat.add_comm, Nat.add_mul_div_right _ _ (by omega : 0 < w), Nat.div_eq_of_lt hx',
      Nat.zero_add]
  have e : y = y' := by rw [← hy, ← hy', h]
  subst e
  exact ⟨rfl, by omega⟩

/-- A row-major offset of a cell of a plane of `h` rows and `w` columns is below `h * w`. -/
theorem offset_lt {w h x y : Nat} (hx : x < w) (hy : y < h) : y * w + x < h * w := by
  have h1 : (y + 1) * w ≤ h * w := Nat.mul_le_mul_right w hy
  have h2 : (y + 1) * w = y * w + w := by ring
  omega

/-! ## The sites of the raw merge -/

theorem mod_div_bounds {cw ch i : Nat} (hi : i < cw * ch) : i % cw < cw ∧ i / cw < ch := by
  have hcw : 0 < cw := by
    rcases Nat.eq_zero_or_pos cw with h | h
    · subst h; simp at hi
    · exact h
  exact ⟨Nat.mod_lt _ hcw, (Nat.div_lt_iff_lt_mul hcw).2 (by rwa [Nat.mul_comm] at hi)⟩

theorem eq_of_mod_div_eq {cw i j : Nat} (hm : i % cw = j % cw) (hd : i / cw = j / cw) :
    i = j := by
  rw [← Nat.div_add_mod i cw, ← Nat.div_add_mod j cw, hm, hd]

/-- Both cells of a site lie on a row and in columns of the square plane. -/
theorem site_in_plane {cw ch i : Nat} (hi : i < cw * ch) :
    siteX0 cw ch i + 1 < cw + ch ∧ siteY cw ch i < cw + ch := by
  obtain ⟨ha, hb⟩ := mod_div_bounds hi
  unfold siteX0 siteY
  generalize i % cw = a at ha ⊢
  generalize i / cw = b at hb ⊢
  split <;> omega

theorem siteBase_succ_lt {cw ch i : Nat} (hi : i < cw * ch) :
    siteBase cw ch i + 1 < (cw + ch) * (cw + ch) := by
  obtain ⟨hx, hy⟩ := site_in_plane hi
  have := offset_lt hx hy
  unfold siteBase
  omega

/-- Two photosites with the same first cell are the same photosite. -/
theorem siteBase_inj {cw ch i j : Nat} (hi : i < cw * ch) (hj : j < cw * ch)
    (h : siteBase cw ch i = siteBase cw ch j) : i = j := by
  obtain ⟨hxi, -⟩ := site_in_plane hi
  obtain ⟨hxj, -⟩ := site_in_plane hj
  obtain ⟨hai, hbi⟩ := mod_div_bounds hi
  obtain ⟨haj, hbj⟩ := mod_div_bounds hj
  obtain ⟨hy, hx⟩ := offset_inj (by omega) (by omega) h
  unfold siteX0 at hx
  unfold siteY at hy
  suffices hs : i % cw = j % cw ∧ i / cw = j / cw from eq_of_mod_div_eq hs.1 hs.2
  generalize i % cw = a at hai hx hy ⊢
  generalize i / cw = b at hbi hx hy ⊢
  generalize j % cw = c at haj hx hy ⊢
  generalize j / cw = d at hbj hx hy ⊢
  split at hx <;> split at hy <;> omega

/-- The first cell of a site is never the second cell of a site. -/
theorem siteBase_ne_succ {cw ch i j : Nat} (hi : i < cw * ch) (hj : j < cw * ch) :
    siteBase cw ch i ≠ siteBase cw ch j + 1 := by
  intro h
  obtain ⟨hxi, -⟩ := site_in_plane hi
  obtain ⟨hxj, -⟩ := site_in_plane hj
  obtain ⟨hai, hbi⟩ := mod_div_bounds hi
  obtain ⟨haj, hbj⟩ := mod_div_bounds hj
  have h' : siteY cw ch i * (cw + ch) + siteX0 cw ch i =
      siteY cw ch j * (cw + ch) + (siteX0 cw ch j + 1) := by
    unfold siteBase at h; omega
  obtain ⟨hy, hx⟩ := offset_inj (by omega) hxj h'
  unfold siteX0 at hx
  unfold siteY at hy
  generalize i % cw = a at hai hx hy
  generalize i / cw = b at hbi hx hy
  generalize j % cw = c at haj hx hy
  generalize j / cw = d at hbj hx hy
  split at hx <;> split at hy <;> omega

/-- The assignments of one iteration of the raw merge, in terms of the site of `i`. -/
theorem rawStores_eq {K : Type} (cw ch : Nat) (f0 f1 : Buffer K) (i : Nat)
    (hi : i < cw * ch) :
    rawStores cw ch (cw + ch) f0 f1 i =
      [(siteBase cw ch i, f0 i),
       (siteBase cw ch i + 1, f1 i),
       (siteBase cw ch i + (cw + ch) * (cw + ch), f0 i),
       (siteBase cw ch i + 1 + (cw + ch) * (cw + ch), f1 i),
       (siteBase cw ch i + (cw + ch) * (cw + ch) * 2, f0 i),
       (siteBase cw ch i + 1 + (cw + ch) * (cw + ch) * 2, f1 i)] := by
  obtain ⟨ha, hb⟩ := mod_div_bounds hi
  unfold rawStores siteBase siteX0 siteY
  split
  · have e : cw - i % cw - 1 = cw - 1 - i % cw := Nat.sub_right_comm cw (i % cw) 1
    simp only [e, Nat.add_assoc]
  · simp only [Nat.add_assoc]

/-! ## The raw merge loop as a run of assignments -/

theorem foldl_rawBody_data_in {K : Type} (cw ch w : Nat) (f0 f1 : Buffer K) (l : List Nat)
    (s : MergeState K) :
    (l.foldl (rawBody cw ch w f0 f1) s).data_in =
      applyStores s.data_in (l.flatMap (rawStores cw ch w f0 f1)) := by
  induction l generalizing s with
  | nil => rfl
  | cons i l ih =>
    rw [List.foldl_cons, ih, List.flatMap_cons, applyStores_append]
    rfl

theorem rawLoop_data_in {K : Type} (cw ch w : Nat) (f0 f1 : Buffer K) (s : MergeState K) :
    (rawLoop cw ch w f0 f1 s).data_in = applyStores s.data_in (rawTrace cw ch w f0 f1) :=
  foldl_rawBody_data_in cw ch w f0 f1 _ s

/-- The cells assigned in iteration `i` of the raw merge. -/
theorem rawStores_keys {K : Type} (cw ch : Nat) (f0 f1 : Buffer K) (i : Nat)
    (hi : i < cw * ch) :
    (rawStores cw ch (cw + ch) f0 f1 i).map Prod.fst =
      [siteBase cw ch i,
       siteBase cw ch i + 1,
       siteBase cw ch i + (cw + ch) * (cw + ch),
       siteBase cw ch i + 1 + (cw + ch) * (cw + ch),
       siteBase cw ch i + (cw + ch) * (cw + ch) * 2,
       siteBase cw ch i + 1 + (cw + ch) * (cw + ch) * 2] := by
  rw [rawStores_eq cw ch f0 f1 i hi]
  rfl

theorem mem_rawTrace_keys {K : Type} (cw ch : Nat) (f0 f1 : Buffer K) (k : Nat) :
    k ∈ (rawTrace cw ch (cw + ch) f0 f1).map Prod.fst ↔
      ∃ i, i < cw * ch ∧
        (k = siteBase cw ch i ∨ k = siteBase cw ch i + 1 ∨
         k = siteBase cw ch i + (cw + ch) * (cw + ch) ∨
         k = siteBase cw ch i + 1 + (cw + ch) * (cw + ch) ∨
         k = siteBase cw ch i + (cw + ch) * (cw + ch) * 2 ∨
         k = siteBase cw ch i + 1 + (cw + ch) * (cw + ch) * 2) := by
  rw [rawTrace, List.map_flatMap, List.mem_flatMap]
  constructor
  · rintro ⟨i, hi, hk⟩
    have hi' : i < cw * ch := List.mem_range.1 hi
    rw [rawStores_keys cw ch f0 f1 i hi'] at hk
    refine ⟨i, hi', ?_⟩
    simpa using hk
  · rintro ⟨i, hi, hk⟩
    refine ⟨i, List.mem_range.2 hi, ?_⟩
    rw [rawStores_keys cw ch f0 f1 i hi]
    simpa using hk

/-- No cell is assigned twice by the raw merge loop. -/
theorem rawTrace_keys_nodup {K : Type} (cw ch : Nat) (f0 f1 : Buffer K) :
    ((rawTrace cw ch (cw + ch) f0 f1).map Prod.fst).Nodup := by
  rw [rawTrace, List.map_flatMap, List.nodup_flatMap]
  constructor
  · intro i hi
    have hi' : i < cw * ch := List.mem_range.1 hi
    rw [rawStores_keys cw ch f0 f1 i hi']
    have hlt := siteBase_succ_lt hi'
    generalize (cw + ch) * (cw + ch) = W at hlt ⊢
    generalize siteBase cw ch i = B at hlt ⊢
    simp only [List.nodup_cons, List.mem_cons, List.mem_singleton, List.not_mem_nil,
      List.nodup_nil, or_false, not_false_eq_true, and_true, not_or]
    omega
  · refine (List.Pairwise.and_mem.1 (List.pairwise_lt_range (cw * ch))).imp ?_
    rintro i j ⟨hi, hj, hlt⟩
    have hi' : i < cw * ch := List.mem_range.1 hi
    have hj' : j < cw * ch := List.mem_range.1 hj
    rw [Function.onFun, rawStores_keys cw ch f0 f1 i hi', rawStores_keys cw ch f0 f1 j hj']
    have h1 := siteBase_succ_lt hi'
    have h2 := siteBase_succ_lt hj'
    have h3 : siteBase cw ch i ≠ siteBase cw ch j := fun h => by
      have := siteBase_inj hi' hj' h
      omega
    have h4 := siteBase_ne_succ hi' hj'
    have h5 := siteBase_ne_succ hj' hi'
    generalize (cw + ch) * (cw + ch) = W at h1 h2 ⊢
    generalize siteBase cw ch i = B at h1 h3 h4 h5 ⊢
    generalize siteBase cw ch j = C at h2 h3 h4 h5 ⊢
    rw [List.disjoint_left]
    intro a ha hb
    simp only [List.mem_cons, List.mem_singleton, List.not_mem_nil, or_false] at ha hb
    omega

/-- No assignment of the raw merge loop leaves the three planes. -/
theorem rawTrace_keys_lt {K : Type} (cw ch : Nat) (f0 f1 : Buffer K) (k : Nat)
    (hk : k ∈ (rawTrace cw ch (cw + ch) f0 f1).map Prod.fst) :
    k < (cw + ch) * (cw + ch) * 3 := by
  obtain ⟨i, hi, h⟩ := (mem_rawTrace_keys cw ch f0 f1 k).1 hk
  have hlt := siteBase_succ_lt hi
  omega

theorem mem_rawTrace_of_mem {K : Type} (cw ch : Nat) (f0 f1 : Buffer K) {i : Nat}
    (hi : i < cw * ch) {w : Nat × K} (hw : w ∈ rawStores cw ch (cw + ch) f0 f1 i) :
    w ∈ rawTrace cw ch (cw + ch) f0 f1 :=
  List.mem_flatMap.2 ⟨i, List.mem_range.2 hi, hw⟩

theorem mergeRaw_ok {K : Type} [Zero K] (ext : Ext K) (p0 p1 : Plane K)
    (hnx : p0.nx = p1.nx) (hny : p0.ny = p1.ny) (hmem : ext.malloc 374 = true) :
    mergeRaw ext (some p0) (some p1) =
      .ok { cfaWidth := p0.nx, cfaHeight := p0.ny, width := p0.nx + p0.ny,
            height := p0.nx + p0.ny,
            landscape := (rawLoop p0.nx p0.ny (p0.nx + p0.ny) p0.data p1.data
              { data_in := zeroFill ((p0.nx + p0.ny) * (p0.nx + p0.ny) * 3) ext.memIn,
                landscape := if p0.nx > p0.ny then true else false }).landscape,
            data_in := (rawLoop p0.nx p0.ny (p0.nx + p0.ny) p0.data p1.data
              { data_in := zeroFill ((p0.nx + p0.ny) * (p0.nx + p0.ny) * 3) ext.memIn,
                landscape := if p0.nx > p0.ny then true else false }).data_in } := by
  have h1 : ¬ (p0.nx ≠ p1.nx ∨ p0.ny ≠ p1.ny) := by
    rw [not_or]; exact ⟨not_not.2 hnx, not_not.2 hny⟩
  have h2 : ¬ (ext.malloc 374 = false) := by rw [hmem]; exact Bool.noConfusion
  simp only [mergeRaw, if_neg h1, if_neg h2]

/-! ## C1: the raw merge copies every sample to its site -/

/-- C1. Raw two-frame merge: when the two frames have the same size and the working buffer
is allocated, the branch returns, and in each of the three planes of `data_in` the cell at
`y * width + x0` holds `frame0[i]` and the next cell holds `frame1[i]`, for every photosite
`i` and the site `(x0, y)` the specification names; both cells lie inside the plane; every
other cell of the plane is `0`; no cell is assigned twice and no assignment leaves the three
planes.  The bound `cfaWidth, cfaHeight >= 1` is not needed. -/
theorem raw_merge_copies_samples {K : Type} [Zero K] (ext : Ext K) (p0 p1 : Plane K)
    (hnx : p0.nx = p1.nx) (hny : p0.ny = p1.ny) (hmem : ext.malloc 374 = true) :
    ∃ m : Merged K, mergeRaw ext (some p0) (some p1) = .ok m ∧
      m.cfaWidth = p0.nx ∧ m.cfaHeight = p0.ny ∧ m.width = p0.nx + p0.ny ∧
      (∀ p, p < 3 →
        (∀ i, i < m.cfaWidth * m.cfaHeight →
          siteY m.cfaWidth m.cfaHeight i * m.width + siteX0 m.cfaWidth m.cfaHeight i + 1
            < m.width * m.width ∧
          m.data_in (p * (m.width * m.width) +
            (siteY m.cfaWidth m.cfaHeight i * m.width + siteX0 m.cfaWidth m.cfaHeight i))
            = p0.data i ∧
          m.data_in (p * (m.width * m.width) +
            (siteY m.cfaWidth m.cfaHeight i * m.width + siteX0 m.cfaWidth m.cfaHeight i + 1))
            = p1.data i) ∧
        (∀ k, k < m.width * m.width →
          (∀ i, i < m.cfaWidth * m.cfaHeight →
            k ≠ siteY m.cfaWidth m.cfaHeight i * m.width + siteX0 m.cfaWidth m.cfaHeight i ∧
            k ≠ siteY m.cfaWidth m.cfaHeight i * m.width + siteX0 m.cfaWidth m.cfaHeight i
              + 1) →
          m.data_in (p * (m.width * m.width) + k) = 0)) ∧
      ((rawTrace m.cfaWidth m.cfaHeight m.width p0.data p1.data).map Prod.fst).Nodup ∧
      (∀ k, k ∈ (rawTrace m.cfaWidth m.cfaHeight m.width p0.data p1.data).map Prod.fst →
        k < m.width * m.width * 3) := by
  refine ⟨_, mergeRaw_ok ext p0 p1 hnx hny hmem, rfl, rfl, rfl, ?_,
    rawTrace_keys_nodup p0.nx p0.ny p0.data p1.data,
    rawTrace_keys_lt p0.nx p0.ny p0.data p1.data⟩
  intro p hp
  simp only [rawLoop_data_in]
  have hnd := rawTrace_keys_nodup p0.nx p0.ny p0.data p1.data
  constructor
  · intro i hi
    have hlt := siteBase_succ_lt hi
    have hst := rawStores_eq p0.nx p0.ny p0.data p1.data i hi
    refine ⟨hlt, ?_, ?_⟩
    · apply applyStores_written _ _ hnd
      apply mem_rawTrace_of_mem p0.nx p0.ny p0.data p1.data hi
      rw [hst]
      change (p * ((p0.nx + p0.ny) * (p0.nx + p0.ny)) + siteBase p0.nx p0.ny i, p0.data i) ∈ _
      rcases (by omega : p = 0 ∨ p = 1 ∨ p = 2) with rfl | rfl | rfl
      · rw [show 0 * ((p0.nx + p0.ny) * (p0.nx + p0.ny)) + siteBase p0.nx p0.ny i
          = siteBase p0.nx p0.ny i by omega]
        simp
      · rw [show 1 * ((p0.nx + p0.ny) * (p0.nx + p0.ny)) + siteBase p0.nx p0.ny i
          = siteBase p0.nx p0.ny i + (p0.nx + p0.ny) * (p0.nx + p0.ny) by omega]
        simp
      · rw [show 2 * ((p0.nx + p0.ny) * (p0.nx + p0.ny)) + siteBase p0.nx p0.ny i
          = siteBase p0.nx p0.ny i + (p0.nx + p0.ny) * (p0.nx + p0.ny) * 2 by omega]
        simp
    · apply applyStores_written _ _ hnd
      apply mem_rawTrace_of_mem p0.nx p0.ny p0.data p1.data hi
      rw [hst]
      change (p * ((p0.nx + p0.ny) * (p0.nx + p0.ny)) + (siteBase p0.nx p0.ny i + 1),
        p1.data i) ∈ _
      rcases (by omega : p = 0 ∨ p = 1 ∨ p = 2) with rfl | rfl | rfl
      · rw [show 0 * ((p0.nx + p0.ny) * (p0.nx + p0.ny)) + (siteBase p0.nx p0.ny i + 1)
          = siteBase p0.nx p0.ny i + 1 by omega]
        simp
      · rw [show 1 * ((p0.nx + p0.ny) * (p0.nx + p0.ny)) + (siteBase p0.nx p0.ny i + 1)
          = siteBase p0.nx p0.ny i + 1 + (p0.nx + p0.ny) * (p0.nx + p0.ny) by omega]
        simp
      · rw [show 2 * ((p0.nx + p0.ny) * (p0.nx + p0.ny)) + (siteBase p0.nx p0.ny i + 1)
          = siteBase p0.nx p0.ny i + 1 + (p0.nx + p0.ny) * (p0.nx + p0.ny) * 2 by omega]
        simp
  · intro k hk hfree
    have hout : p * ((p0.nx + p0.ny) * (p0.nx + p0.ny)) + k ∉
        (rawTrace p0.nx p0.ny (p0.nx + p0.ny) p0.data p1.data).map Prod.fst := by
      intro hmemk
      obtain ⟨i, hi, h⟩ := (mem_rawTrace_keys p0.nx p0.ny p0.data p1.data _).1 hmemk
      have hlt := siteBase_succ_lt hi
      have hne := hfree i hi
      change k ≠ siteBase p0.nx p0.ny i ∧ k ≠ siteBase p0.nx p0.ny i + 1 at hne
      rcases (by omega : p = 0 ∨ p = 1 ∨ p = 2) with rfl | rfl | rfl <;> omega
    rw [applyStores_untouched _ _ _ hout, zeroFill_apply, if_pos]
    rcases (by omega : p = 0 ∨ p = 1 ∨ p = 2) with rfl | rfl | rfl <;> omega

/-- C1 at two 6 by 4 frames holding 100 and 200: photosite 7 lands on row 5, columns 2 and
3, of each plane. -/
theorem raw_merge_copies_samples_witness :
    ((flatPlane 6 4 100).nx = (flatPlane 6 4 200).nx ∧
      (flatPlane 6 4 100).ny = (flatPlane 6 4 200).ny ∧ sampleExt.malloc 374 = true) ∧
    ∃ m : Merged ℚ,
      mergeRaw sampleExt (some (flatPlane 6 4 100)) (some (flatPlane 6 4 200)) = .ok m ∧
      m.data_in (1 * (10 * 10) + (5 * 10 + 2)) = 100 ∧
      m.data_in (1 * (10 * 10) + (5 * 10 + 2 + 1)) = 200 := by
  refine ⟨⟨rfl, rfl, rfl⟩, ?_⟩
  obtain ⟨m, hm, hcw, hch, hwd, hplanes, -, -⟩ :=
    raw_merge_copies_samples sampleExt (flatPlane 6 4 100) (flatPlane 6 4 200) rfl rfl rfl
  refine ⟨m, hm, ?_⟩
  have h := (hplanes 1 (by decide)).1 7
    (by rw [hcw, hch]; decide)
  rw [hcw, hch, hwd] at h
  exact ⟨h.2.1, h.2.2⟩

/-! ## C2: the stencil stays inside its plane -/

theorem margin_le {n : Nat} (h : 2 ≤ n) : margin n ≤ n - 2 := by
  unfold margin
  omega

theorem pos_of_floor_div_pos {K : Type} [LinearOrderedField K] [FloorRing K] (step : K)
    {n m : Nat} (h : m < ⌊(n : K) / step⌋₊) : 1 ≤ n := by
  rcases Nat.eq_zero_or_pos n with h0 | h0
  · subst h0
    simp at h
  · exact h0

theorem toUshort_le (n : Nat) : toUshort n ≤ n := Nat.mod_le n 65536

/-- The loop bound `rotWidth` is not larger than the floor of `cfaWidth / step`. -/
theorem rotWidthOf_le {K : Type} [LinearOrderedField K] [FloorRing K] (step : K)
    (cfaWidth : Nat) : rotWidthOf step cfaWidth ≤ ⌊(cfaWidth : K) / step⌋₊ :=
  toUshort_le _

/-- The loop bound `rotHeight` is not larger than the floor of
`(height - cfaWidth) / step`. -/
theorem rotHeightOf_le {K : Type} [LinearOrderedField K] [FloorRing K] (step : K)
    (height cfaWidth : Nat) :
    rotHeightOf step height cfaWidth ≤ ⌊((height - cfaWidth : Nat) : K) / step⌋₊ :=
  toUshort_le _

/-- The stored value depends on `data_out` only through the four stencil offsets. -/
theorem interpolate_reads_stencil {K : Type} [LinearOrderedField K] (d d' : Buffer K)
    (width height ur uc i : Nat) (fr fc : K)
    (h : ∀ k, k ∈ stencil width height ur uc i → d k = d' k) :
    interpolate d width height ur uc i fr fc = interpolate d' width height ur uc i fr fc := by
  have h0 := h (stencilBase width height ur uc i) (by simp [stencil])
  have h1 := h (stencilBase width height ur uc i + 1) (by simp [stencil])
  have h2 := h (stencilBase width height ur uc i + width) (by simp [stencil])
  have h3 := h (stencilBase width height ur uc i + width + 1) (by simp [stencil])
  simp only [interpolate, h0, h1, h2, h3]

/-- C2. Derotation never reads outside the dense buffer: when the rotated image has a pixel
`(row, col)` at all, with `rotWidth` and `rotHeight` the floors the claim names (the `ushort`
values used by the loops are not larger), then whatever the truncated source coordinates
`ur`, `uc` are, if the test before `continue` does not skip them, the four stencil offsets
of plane `i` lie in `[i * width * height, (i + 1) * width * height)`, for every `i` and so
for the three colour planes. -/
theorem derotation_reads_in_plane {K : Type} [LinearOrderedField K] [FloorRing K] (step : K)
    (cfaWidth cfaHeight row col ur uc i : Nat)
    (hrow : row < ⌊(((cfaWidth + cfaHeight) - cfaWidth : Nat) : K) / step⌋₊)
    (hcol : col < ⌊(cfaWidth : K) / step⌋₊)
    (hkeep : skipped (cfaWidth + cfaHeight) (cfaWidth + cfaHeight) ur uc = false) :
    ∀ k, k ∈ stencil (cfaWidth + cfaHeight) (cfaWidth + cfaHeight) ur uc i →
      i * (cfaWidth + cfaHeight) * (cfaWidth + cfaHeight) ≤ k ∧
      k < (i + 1) * (cfaWidth + cfaHeight) * (cfaWidth + cfaHeight) := by
  have hcw : 1 ≤ cfaWidth := pos_of_floor_div_pos step hcol
  have hch : 1 ≤ cfaWidth + cfaHeight - cfaWidth := pos_of_floor_div_pos step hrow
  have hw2 : 2 ≤ cfaWidth + cfaHeight := by omega
  have hm := margin_le hw2
  have hur : ur ≤ margin (cfaWidth + cfaHeight) ∧ uc ≤ margin (cfaWidth + cfaHeight) := by
    simpa [skipped] using hkeep
  generalize cfaWidth + cfaHeight = w at hw2 hm hur ⊢
  have hlast : (ur + 1) * w + (uc + 1) < w * w :=
    offset_lt (show uc + 1 < w by omega) (show ur + 1 < w by omega)
  have e1 : (ur + 1) * w = ur * w + w := by ring
  have e2 : (i + 1) * w * w = i * w * w + w * w := by ring
  intro k hk
  simp only [stencil, stencilBase, List.mem_cons, List.mem_singleton, List.not_mem_nil,
    or_false] at hk
  rw [e2]
  omega

/-- C2 at a 4 by 3 sensor with `step = 7/10`: pixel `(0, 0)` exists, the source cell
`(4, 0)` is kept, and the four offsets read in plane 1 lie in `[49, 98)`. -/
theorem derotation_reads_in_plane_witness :
    (0 < ⌊(((4 + 3) - 4 : Nat) : ℚ) / (7 / 10)⌋₊ ∧ 0 < ⌊((4 : Nat) : ℚ) / (7 / 10)⌋₊ ∧
      skipped (4 + 3) (4 + 3) 4 0 = false) ∧
    ∀ k, k ∈ stencil (4 + 3) (4 + 3) 4 0 1 →
      1 * (4 + 3) * (4 + 3) ≤ k ∧ k < (1 + 1) * (4 + 3) * (4 + 3) := by
  have h1 : 0 < ⌊(((4 + 3) - 4 : Nat) : ℚ) / (7 / 10)⌋₊ := by
    rw [Nat.floor_pos]; norm_num
  have h2 : 0 < ⌊((4 : Nat) : ℚ) / (7 / 10)⌋₊ := by
    rw [Nat.floor_pos]; norm_num
  have h3 : skipped (4 + 3) (4 + 3) 4 0 = false := by decide
  exact ⟨⟨h1, h2, h3⟩, derotation_reads_in_plane (7 / 10 : ℚ) 4 3 0 0 4 0 1 h1 h2 h3⟩

/-! ## C4: the range clamper -/

theorem clampCell_apply {K : Type} [LinearOrderedField K] (b : Buffer K) (k j : Nat) :
    clampCell b k j = if j = k then clampSpec (b k) else b j := by
  unfold clampCell clampSpec
  by_cases hneg : b k < 0
  · have h0 : ¬ (65535 : K) < 0 := by norm_num
    by_cases hj : j = k
    · subst hj
      simp [hneg, store, h0]
    · simp [hneg, store, h0, hj]
  · by_cases hbig : (65535 : K) < b k
    · by_cases hj : j = k
      · subst hj
        simp [hneg, hbig, store]
      · simp [hneg, hbig, store, hj]
    · by_cases hj : j = k
      · subst hj
        simp [hneg, hbig]
      · simp [hneg, hbig, hj]

theorem clampLoop_apply {K : Type} [LinearOrderedField K] (n : Nat) (b : Buffer K) (k : Nat) :
    clampLoop n b k = if k < n then clampSpec (b k) else b k := by
  induction n generalizing k with
  | zero => simp [clampLoop]
  | succ n ih =>
    have hstep : clampLoop (n + 1) b = clampCell (clampLoop n b) n := by
      simp [clampLoop, List.range_succ, List.foldl_append]
    have hn : clampLoop n b n = b n := by
      rw [ih n, if_neg (Nat.lt_irrefl n)]
    rw [hstep, clampCell_apply]
    by_cases hk : k = n
    · subst hk
      simp [hn]
    · rw [if_neg hk, ih]
      by_cases h1 : k < n
      · simp [h1, Nat.lt_succ_of_lt h1]
      · have h2 : ¬ k < n + 1 := by omega
        simp [h1, h2]

theorem clampSpec_range {K : Type} [LinearOrderedField K] (v : K) :
    0 ≤ clampSpec v ∧ clampSpec v ≤ 65535 := by
  unfold clampSpec
  split_ifs with h1 h2
  · norm_num
  · norm_num
  · exact ⟨not_lt.1 h1, not_lt.1 h2⟩

/-- C4. Range clamper: after the loop over the `3 * width * width` cells of the dense
buffer, every cell holds the clamp of its previous value; it lies in `[0, 65535]`, and a
value already in that range is unchanged. -/
theorem clamp_loop_clamps {K : Type} [LinearOrderedField K] (width : Nat)
    (data_out : Buffer K) (k : Nat) (hk : k < 3 * width * width) :
    clampLoop (3 * width * width) data_out k = clampSpec (data_out k) ∧
    0 ≤ clampLoop (3 * width * width) data_out k ∧
    clampLoop (3 * width * width) data_out k ≤ 65535 ∧
    (0 ≤ data_out k → data_out k ≤ 65535 →
      clampLoop (3 * width * width) data_out k = data_out k) := by
  have h := clampLoop_apply (3 * width * width) data_out k
  rw [if_pos hk] at h
  rw [h]
  refine ⟨rfl, (clampSpec_range _).1, (clampSpec_range _).2, ?_⟩
  intro h0 h1
  unfold clampSpec
  rw [if_neg (not_lt.2 h0), if_neg (not_lt.2 h1)]

/-- C4 at `width = 1` on a buffer holding `70000` in cell 1. -/
theorem clamp_loop_clamps_witness :
    1 < 3 * 1 * 1 ∧
    clampLoop (3 * 1 * 1) (fun j => if j = 1 then (70000 : ℚ) else -5) 1
      = clampSpec (if 1 = 1 then (70000 : ℚ) else -5) :=
  ⟨by decide,
   (clamp_loop_clamps 1 (fun j => if j = 1 then (70000 : ℚ) else -5) 1 (by decide)).1⟩

/-! ## C5: planes of different sizes -/

theorem finish_ne_planeSize {K : Type} [LinearOrderedField K] [FloorRing K] (ext : Ext K)
    (m : Merged K) : finish ext m ≠ .error .planeSize := by
  unfold finish
  split_ifs <;> simp

theorem run_ssd_of_raw {K : Type} [LinearOrderedField K] [FloorRing K] (ext : Ext K)
    (args : Args K) (h : args.merged_cfa = false) :
    run_ssd ext args = run_ssd_raw ext args.input_file_0 args.input_file_1 := by
  simp [run_ssd, h]

theorem run_ssd_of_merged {K : Type} [LinearOrderedField K] [FloorRing K] (ext : Ext K)
    (args : Args K) (h : args.merged_cfa = true) :
    run_ssd ext args =
      run_ssd_merged ext args.geometry args.input_file_0 args.input_file_1
        args.input_file_2 := by
  simp [run_ssd, h]

/-- C5. Dimension mismatch is fatal: on two raw frames whose sizes differ `run_ssd` ends
with the size failure, and with `-m` on three planes that do not all have the same size it
ends with a failure (of the geometry scan when `sscanf` returned a negative value, of the
size check otherwise); the result is an error for every external, so no allocation, merge
or write precedes it.  On two raw frames of equal size `run_ssd` never ends with the size
failure. -/
theorem size_mismatch_is_fatal {K : Type} [LinearOrderedField K] [FloorRing K]
    (ext : Ext K) :
    (∀ (args : Args K) (p0 p1 : Plane K), args.merged_cfa = false →
      args.input_file_0 = some p0 → args.input_file_1 = some p1 →
      (p0.nx, p0.ny) ≠ (p1.nx, p1.ny) →
      run_ssd ext args = .error .planeSize) ∧
    (∀ (args : Args K) (p0 p1 p2 : Plane K), args.merged_cfa = true →
      args.input_file_0 = some p0 → args.input_file_1 = some p1 →
      args.input_file_2 = some p2 →
      ¬ ((p0.nx, p0.ny) = (p1.nx, p1.ny) ∧ (p0.nx, p0.ny) = (p2.nx, p2.ny)) →
      run_ssd ext args =
        .error (if args.geometry.ret < 0 then .geometryParse else .planeSize)) ∧
    (∀ (args : Args K) (p0 p1 : Plane K), args.merged_cfa = false →
      args.input_file_0 = some p0 → args.input_file_1 = some p1 →
      (p0.nx, p0.ny) = (p1.nx, p1.ny) →
      run_ssd ext args ≠ .error .planeSize) := by
  refine ⟨?_, ?_, ?_⟩
  · intro args p0 p1 hmode h0 h1 h
    have h' : p0.nx ≠ p1.nx ∨ p0.ny ≠ p1.ny := by
      by_contra hc
      rw [not_or, not_not, not_not] at hc
      exact h (by rw [hc.1, hc.2])
    rw [run_ssd_of_raw ext args hmode, h0, h1]
    simp only [run_ssd_raw, mergeRaw, if_pos h']
  · intro args p0 p1 p2 hmode h0 h1 h2 h
    rw [run_ssd_of_merged ext args hmode, h0, h1, h2]
    by_cases hret : args.geometry.ret < 0
    · simp only [run_ssd_merged, mergeMerged, if_pos hret]
    · have h' : p0.nx ≠ p1.nx ∨ p0.nx ≠ p2.nx ∨ p1.nx ≠ p2.nx ∨
          p0.ny ≠ p1.ny ∨ p0.ny ≠ p2.ny ∨ p1.ny ≠ p2.ny := by
        by_contra hc
        simp only [not_or, not_not] at hc
        exact h ⟨by rw [hc.1, hc.2.2.2.1], by rw [hc.2.1, hc.2.2.2.2.1]⟩
      simp only [run_ssd_merged, mergeMerged, if_neg hret, if_pos h']
  · intro args p0 p1 hmode h0 h1 h
    have hnx : p0.nx = p1.nx := congrArg Prod.fst h
    have hny : p0.ny = p1.ny := congrArg Prod.snd h
    rw [run_ssd_of_raw ext args hmode, h0, h1]
    cases hmem : ext.malloc 374 with
    | true =>
      simp only [run_ssd_raw, mergeRaw_ok ext p0 p1 hnx hny hmem]
      exact finish_ne_planeSize ext _
    | false =>
      have hsz : ¬ (p0.nx ≠ p1.nx ∨ p0.ny ≠ p1.ny) := by
        rw [not_or]; exact ⟨not_not.2 hnx, not_not.2 hny⟩
      simp [run_ssd_raw, mergeRaw, if_neg hsz, hmem]

/-- C5 at a 4 by 4 frame with a 5 by 4 frame. -/
theorem size_mismatch_is_fatal_witness :
    ((flatPlane 4 4 100).nx, (flatPlane 4 4 100).ny) ≠
      ((flatPlane 5 4 200).nx, (flatPlane 5 4 200).ny) ∧
    run_ssd sampleExt (rawArgs (flatPlane 4 4 100) (flatPlane 5 4 200)) =
      .error .planeSize :=
  ⟨by decide,
   (size_mismatch_is_fatal sampleExt).1 (rawArgs (flatPlane 4 4 100) (flatPlane 5 4 200))
     (flatPlane 4 4 100) (flatPlane 5 4 200) rfl rfl rfl (by decide)⟩

/-! ## C6: the geometry check of the merged input -/

/-- With `-m`, planes of equal size whose width is not `cfaWidth + cfaHeight` end the run
with the geometry failure. -/
theorem merged_width_check {K : Type} [LinearOrderedField K] [FloorRing K] (ext : Ext K)
    (geometry : Scan) (p0 p1 p2 : Plane K) (hret : 0 ≤ geometry.ret)
    (h1 : (p0.nx, p0.ny) = (p1.nx, p1.ny)) (h2 : (p0.nx, p0.ny) = (p2.nx, p2.ny))
    (hfit : p0.nx ≠ geometry.cfaWidth + geometry.cfaHeight) :
    run_ssd_merged ext geometry (some p0) (some p1) (some p2) = .error .geometryFit := by
  have a1 : p0.nx = p1.nx := congrArg Prod.fst h1
  have a2 : p0.ny = p1.ny := congrArg Prod.snd h1
  have a3 : p0.nx = p2.nx := congrArg Prod.fst h2
  have a4 : p0.ny = p2.ny := congrArg Prod.snd h2
  have hsz : ¬ (p0.nx ≠ p1.nx ∨ p0.nx ≠ p2.nx ∨ p1.nx ≠ p2.nx ∨
      p0.ny ≠ p1.ny ∨ p0.ny ≠ p2.ny ∨ p1.ny ≠ p2.ny) := by
    simp only [not_or, not_not]
    exact ⟨a1, a3, a1 ▸ a3, a2, a4, a2 ▸ a4⟩
  simp only [run_ssd_merged, mergeMerged, if_neg (not_lt.2 hret), if_neg hsz, if_pos hfit]

/-- C6 at the geometry `2x1` with three planes of 3 columns and 5 rows: the planes are not
3 by 3, yet the merge stage returns and the run goes on to the end. -/
theorem merged_geometry_rows_unchecked :
    ((flatPlane 3 5 1).nx, (flatPlane 3 5 1).ny) ≠ (2 + 1, 2 + 1) ∧
    (∃ m : Merged ℚ,
      mergeMerged sampleExt { ret := 2, cfaWidth := 2, cfaHeight := 1 }
        (some (flatPlane 3 5 1)) (some (flatPlane 3 5 2)) (some (flatPlane 3 5 3)) = .ok m) ∧
    (∃ out : Written ℚ,
      run_ssd sampleExt (mergedArgs 2 1 (flatPlane 3 5 1) (flatPlane 3 5 2) (flatPlane 3 5 3))
        = .ok out) :=
  ⟨by decide, ⟨_, rfl⟩, ⟨_, rfl⟩⟩

/-! ## C7: channel selection of the merged input -/

/-- When `cfaWidth > cfaHeight` does not hold, an iteration of the merged-input loop makes
the six assignments of the raw merge: all three planes, from `frame0` and `frame1`. -/
theorem mergedStores_portrait {K : Type} (cw ch w : Nat) (f0 f1 f2 : Buffer K) (i : Nat)
    (h : ¬ cw > ch) : mergedStores cw ch w f0 f1 f2 i = rawStores cw ch w f0 f1 i := by
  simp only [mergedStores, rawStores, if_neg h]

/-- C7 at the geometry `2x3` (portrait) with 5 by 5 planes holding 1 (red), 2 (green) and
3 (blue): photosite 0 has its site at row 0, columns 2 and 3; the merge stores the red
sample in all three planes at column 2 and the green sample in all three planes at column
3, and the assignments of the iteration never read the blue plane. -/
theorem merged_portrait_writes_all_planes :
    (∃ m : Merged ℚ,
      mergeMerged sampleExt { ret := 2, cfaWidth := 2, cfaHeight := 3 }
        (some (flatPlane 5 5 1)) (some (flatPlane 5 5 2)) (some (flatPlane 5 5 3)) = .ok m ∧
      m.data_in (0 * 25 + 2) = 1 ∧ m.data_in (1 * 25 + 2) = 1 ∧ m.data_in (2 * 25 + 2) = 1 ∧
      m.data_in (0 * 25 + 3) = 2 ∧ m.data_in (1 * 25 + 3) = 2 ∧ m.data_in (2 * 25 + 3) = 2) ∧
    (∀ f0 f1 f2 : Buffer ℚ,
      mergedStores 2 3 5 f0 f1 f2 0 =
        [(2, f0 0), (3, f1 0), (27, f0 0), (28, f1 0), (52, f0 0), (53, f1 0)]) :=
  ⟨⟨_, rfl, rfl, rfl, rfl, rfl, rfl, rfl⟩, fun _ _ _ => rfl⟩

/-! ## C9: the landscape flag -/

theorem foldl_rawBody_landscape {K : Type} (cw ch w : Nat) (f0 f1 : Buffer K) (l : List Nat)
    (s : MergeState K) :
    (l.foldl (rawBody cw ch w f0 f1) s).landscape =
      if cw > ch ∧ l ≠ [] then true else s.landscape := by
  induction l generalizing s with
  | nil => simp
  | cons i l ih =>
    rw [List.foldl_cons, ih]
    by_cases h : cw > ch
    · simp [rawBody, h]
    · simp [rawBody, h]

theorem foldl_mergedBody_landscape {K : Type} (cw ch w : Nat) (f0 f1 f2 : Buffer K)
    (l : List Nat) (s : MergeState K) :
    (l.foldl (mergedBody cw ch w f0 f1 f2) s).landscape =
      if cw > ch ∧ l ≠ [] then true else s.landscape := by
  induction l generalizing s with
  | nil => simp
  | cons i l ih =>
    rw [List.foldl_cons, ih]
    by_cases h : cw > ch
    · simp [mergedBody, h]
    · simp [mergedBody, h]

/-- On raw frames the flag after the merge is the comparison `cfaWidth > cfaHeight`. -/
theorem rawLoop_landscape {K : Type} (cw ch w : Nat) (f0 f1 b : Buffer K) :
    (rawLoop cw ch w f0 f1
      { data_in := b, landscape := if cw > ch then true else false }).landscape
      = decide (cw > ch) := by
  rw [rawLoop, foldl_rawBody_landscape]
  by_cases h : cw > ch <;> simp [h]

/-- With `-m` the flag after the merge is the comparison `cfaWidth > cfaHeight` as soon as
the loop has an iteration. -/
theorem mergedLoop_landscape {K : Type} (cw ch w : Nat) (f0 f1 f2 b : Buffer K)
    (hpos : 0 < cw * ch) :
    (mergedLoop cw ch w f0 f1 f2 { data_in := b, landscape := false }).landscape
      = decide (cw > ch) := by
  rw [mergedLoop, foldl_mergedBody_landscape]
  have hne : List.range (cw * ch) ≠ [] := by
    intro h
    rw [List.range_eq_nil] at h
    omega
  by_cases h : cw > ch <;> simp [h, hne]

/-- With `-m` and no photosite the flag keeps its initial value `false`. -/
theorem mergedLoop_landscape_empty {K : Type} (cw ch w : Nat) (f0 f1 f2 b : Buffer K)
    (hzero : cw * ch = 0) :
    (mergedLoop cw ch w f0 f1 f2 { data_in := b, landscape := false }).landscape = false := by
  rw [mergedLoop, hzero]
  rfl

/-- C9 at the geometry `5x0` with three 5 by 5 planes: `cfaWidth > cfaHeight`, the merge
stage returns, and the flag handed on to the demosaicking call is `false`. -/
theorem merged_flag_unset_without_photosites :
    ∃ m : Merged ℚ,
      mergeMerged sampleExt { ret := 2, cfaWidth := 5, cfaHeight := 0 }
        (some (flatPlane 5 5 1)) (some (flatPlane 5 5 2)) (some (flatPlane 5 5 3)) = .ok m ∧
      m.cfaWidth > m.cfaHeight ∧ m.landscape = false :=
  ⟨_, rfl, by decide, rfl⟩

/-! ## C10: the range check on `beta` -/

theorem floor_le_roundHalfEven {K : Type} [LinearOrderedField K] [FloorRing K] (x : K) :
    ⌊x⌋ ≤ roundHalfEven x := by
  unfold roundHalfEven
  split_ifs <;> omega

theorem roundHalfEven_le_floor_succ {K : Type} [LinearOrderedField K] [FloorRing K] (x : K) :
    roundHalfEven x ≤ ⌊x⌋ + 1 := by
  unfold roundHalfEven
  split_ifs <;> omega

/-- Rounding does not cross an even integer from at most half a unit above it. -/
theorem roundHalfEven_le_of_le_add_half {K : Type} [LinearOrderedField K] [FloorRing K]
    {x : K} {n : ℤ} (hn : n % 2 = 0) (h : x ≤ (n : K) + 1 / 2) : roundHalfEven x ≤ n := by
  have hfl : ⌊x⌋ ≤ n := by
    rw [Int.floor_le_iff]
    linarith
  rcases lt_or_eq_of_le hfl with hlt | heq
  · have := roundHalfEven_le_floor_succ x
    omega
  · have hfrac : ¬ (1 / 2 < x - (n : K)) := by
      intro hc
      linarith
    unfold roundHalfEven
    rw [heq, if_neg hfrac]
    split_ifs <;> omega

/-- Rounding does not cross an even integer from at most half a unit below it. -/
theorem le_roundHalfEven_of_sub_half_le {K : Type} [LinearOrderedField K] [FloorRing K]
    {x : K} {n : ℤ} (hn : n % 2 = 0) (h : (n : K) - 1 / 2 ≤ x) : n ≤ roundHalfEven x := by
  have hfl : n - 1 ≤ ⌊x⌋ := by
    rw [Int.le_floor]
    push_cast
    linarith
  rcases lt_or_eq_of_le hfl with hlt | heq
  · have := floor_le_roundHalfEven x
    omega
  · have hfrac : ¬ (x - (⌊x⌋ : K) < 1 / 2) := by
      rw [← heq]
      push_cast
      intro hc
      linarith
    have hodd : ¬ (⌊x⌋ % 2 = 0) := by omega
    unfold roundHalfEven
    rw [if_neg hfrac]
    split_ifs <;> omega

/-- More than half a unit above an integer rounds to a larger integer. -/
theorem lt_roundHalfEven {K : Type} [LinearOrderedField K] [FloorRing K]
    {x : K} {n : ℤ} (h : (n : K) + 1 / 2 < x) : n + 1 ≤ roundHalfEven x := by
  have hfl : n ≤ ⌊x⌋ := by
    rw [Int.le_floor]
    linarith
  rcases lt_or_eq_of_le hfl with hlt | heq
  · have := floor_le_roundHalfEven x
    omega
  · have h1 : ¬ (x - (⌊x⌋ : K) < 1 / 2) := by
      rw [← heq]
      intro hc
      linarith
    have h2 : 1 / 2 < x - (⌊x⌋ : K) := by
      rw [← heq]
      linarith
    unfold roundHalfEven
    rw [if_neg h1, if_pos h2]
    omega

/-- More than half a unit below an integer rounds to a smaller integer. -/
theorem roundHalfEven_lt {K : Type} [LinearOrderedField K] [FloorRing K]
    {x : K} {n : ℤ} (h : x < (n : K) - 1 / 2) : roundHalfEven x ≤ n - 1 := by
  have hfl : ⌊x⌋ ≤ n - 1 := by
    rw [Int.floor_le_iff]
    push_cast
    linarith
  rcases lt_or_eq_of_le hfl with hlt | heq
  · have := roundHalfEven_le_floor_succ x
    omega
  · have h1 : x - (⌊x⌋ : K) < 1 / 2 := by
      rw [heq]
      push_cast
      linarith
    unfold roundHalfEven
    rw [if_pos h1]
    omega

theorem spacing_pos {K : Type} [LinearOrderedField K] [FloorRing K] (x : K) :
    (0 : K) < 2 ^ floatSpacingExp x :=
  zpow_pos (by norm_num) _

theorem spacingExp_ge {K : Type} [LinearOrderedField K] [FloorRing K] (x : K) :
    -149 ≤ floatSpacingExp x := by
  unfold floatSpacingExp
  have := le_max_right (Int.log 2 |x|) (-126)
  omega

/-- A value not below `-2^-150` narrows to a value that is not negative. -/
theorem narrowToFloat_nonneg {K : Type} [LinearOrderedField K] [FloorRing K] {x : K}
    (h : -(2 : K) ^ (-150 : ℤ) ≤ x) : 0 ≤ narrowToFloat x := by
  have hu := spacing_pos x
  have he := spacingExp_ge x
  have h2 : (2 : K) ^ (-149 : ℤ) ≤ 2 ^ floatSpacingExp x :=
    zpow_le_zpow_right₀ (by norm_num) he
  have h3 : (2 : K) ^ (-149 : ℤ) = 2 * 2 ^ (-150 : ℤ) := by
    rw [show (-149 : ℤ) = 1 + -150 by norm_num, zpow_add₀ (by norm_num), zpow_one]
  have hx : ((0 : ℤ) : K) - 1 / 2 ≤ x / 2 ^ floatSpacingExp x := by
    rw [le_div_iff₀ hu]
    push_cast
    linarith
  have hr := le_roundHalfEven_of_sub_half_le (by decide) hx
  have hr' : (0 : K) ≤ (roundHalfEven (x / 2 ^ floatSpacingExp x) : K) := by
    exact_mod_cast hr
  exact mul_nonneg hr' hu.le

/-- Half the spacing around a value other than zero is below its magnitude, unless the
spacing is that of the subnormal range. -/
theorem half_spacing_lt {K : Type} [LinearOrderedField K] [FloorRing K] {x : K}
    (hx : 0 < |x|) (hlog : -126 < Int.log 2 |x|) :
    (2 : K) ^ floatSpacingExp x / 2 < |x| := by
  have h1 : ((2 : Nat) : K) ^ Int.log 2 |x| ≤ |x| := Int.zpow_log_le_self (by norm_num) hx
  have he : floatSpacingExp x = Int.log 2 |x| - 23 := by
    unfold floatSpacingExp
    rw [max_eq_left (by omega)]
  have h2 : (2 : K) ^ floatSpacingExp x ≤ 2 ^ Int.log 2 |x| :=
    zpow_le_zpow_right₀ (by norm_num) (by omega)
  have hu := spacing_pos x
  have h3 : ((2 : Nat) : K) = 2 := by norm_num
  rw [h3] at h1
  linarith

/-- A value below `-2^-150` narrows to a negative value. -/
theorem narrowToFloat_neg {K : Type} [LinearOrderedField K] [FloorRing K] {x : K}
    (h : x < -(2 : K) ^ (-150 : ℤ)) : narrowToFloat x < 0 := by
  have hu := spacing_pos x
  have h150 : (0 : K) < 2 ^ (-150 : ℤ) := zpow_pos (by norm_num) _
  have hxneg : x < 0 := by linarith
  have habs : |x| = -x := abs_of_neg hxneg
  have hhalf : (2 : K) ^ floatSpacingExp x / 2 < -x := by
    by_cases hlog : -126 < Int.log 2 |x|
    · have := half_spacing_lt (abs_pos.2 hxneg.ne) hlog
      rwa [habs] at this
    · have he : floatSpacingExp x = -149 := by
        unfold floatSpacingExp
        rw [max_eq_right (by omega)]
        norm_num
      have h3 : (2 : K) ^ (-149 : ℤ) = 2 * 2 ^ (-150 : ℤ) := by
        rw [show (-149 : ℤ) = 1 + -150 by norm_num, zpow_add₀ (by norm_num), zpow_one]
      rw [he, h3]
      generalize (2 : K) ^ (-150 : ℤ) = a at h ⊢
      linarith
  have hx : x / 2 ^ floatSpacingExp x < ((0 : ℤ) : K) - 1 / 2 := by
    rw [div_lt_iff₀ hu]
    push_cast
    linarith
  have hr := roundHalfEven_lt hx
  have hr' : (roundHalfEven (x / 2 ^ floatSpacingExp x) : K) ≤ -1 := by
    exact_mod_cast hr
  unfold narrowToFloat
  nlinarith

theorem narrowToFloat_neg_iff {K : Type} [LinearOrderedField K] [FloorRing K] (x : K) :
    narrowToFloat x < 0 ↔ x < -(2 : K) ^ (-150 : ℤ) := by
  constructor
  · intro h
    by_contra hc
    exact absurd (narrowToFloat_nonneg (not_lt.1 hc)) (not_le.2 h)
  · exact narrowToFloat_neg

theorem two_pow_even {k : Nat} (hk : 1 ≤ k) : ((2 : ℤ) ^ k) % 2 = 0 := by
  obtain ⟨j, rfl⟩ : ∃ j, k = j + 1 := ⟨k - 1, by omega⟩
  rw [pow_succ]
  exact Int.mul_emod_left _ _

/-- Narrowing when the spacing is `2^-k`: at most half a unit above `2^k` units gives at
most `1`. -/
theorem narrowToFloat_le_one_of_spacing {K : Type} [LinearOrderedField K] [FloorRing K]
    {x : K} {k : Nat} (hk : 1 ≤ k) (he : floatSpacingExp x = -(k : ℤ))
    (hx : x * 2 ^ k ≤ 2 ^ k + 1 / 2) : narrowToFloat x ≤ 1 := by
  have hp : (0 : K) < 2 ^ k := pow_pos (by norm_num) k
  have hu : (2 : K) ^ floatSpacingExp x = (2 ^ k)⁻¹ := by
    rw [he, zpow_neg, zpow_natCast]
  have hr := roundHalfEven_le_of_le_add_half (x := x * 2 ^ k) (n := (2 : ℤ) ^ k)
    (two_pow_even hk) (by push_cast; exact hx)
  have hr' : (roundHalfEven (x * 2 ^ k) : K) ≤ 2 ^ k := by
    exact_mod_cast hr
  unfold narrowToFloat
  rw [hu, div_inv_eq_mul, ← div_eq_mul_inv, div_le_one hp]
  exact hr'

/-- A value of at most `1 + 2^-24` narrows to at most `1`. -/
theorem narrowToFloat_le_one {K : Type} [LinearOrderedField K] [FloorRing K] {x : K}
    (h : x ≤ 1 + (2 : K) ^ (-24 : ℤ)) : narrowToFloat x ≤ 1 := by
  have hu := spacing_pos x
  by_cases hx0 : x ≤ 0
  · have hx : x / 2 ^ floatSpacingExp x ≤ ((0 : ℤ) : K) + 1 / 2 := by
      rw [div_le_iff₀ hu]
      push_cast
      linarith
    have hr := roundHalfEven_le_of_le_add_half (by decide) hx
    have hr' : (roundHalfEven (x / 2 ^ floatSpacingExp x) : K) ≤ 0 := by
      exact_mod_cast hr
    unfold narrowToFloat
    nlinarith
  · have hpos : 0 < x := not_le.1 hx0
    have habs : |x| = x := abs_of_pos hpos
    have h24 : (2 : K) ^ (-24 : ℤ) < 1 := by
      have := zpow_lt_zpow_right₀ (show (1 : K) < 2 by norm_num) (show (-24 : ℤ) < 0 by norm_num)
      simpa using this
    have hlt2 : x < ((2 : Nat) : K) ^ (1 : ℤ) := by
      rw [zpow_one]
      push_cast
      linarith
    have hlog : Int.log 2 x < 1 := (Int.lt_zpow_iff_log_lt (by norm_num) hpos).1 hlt2
    have hle : floatSpacingExp x ≤ -23 := by
      unfold floatSpacingExp
      rw [habs]
      have := max_le (show Int.log 2 x ≤ 0 by omega) (show (-126 : ℤ) ≤ 0 by norm_num)
      omega
    obtain ⟨k, hk⟩ : ∃ k : Nat, floatSpacingExp x = -(k : ℤ) :=
      ⟨(-floatSpacingExp x).toNat, by rw [Int.toNat_of_nonneg (by omega)]; omega⟩
    apply narrowToFloat_le_one_of_spacing (k := k) (by omega) hk
    have hp : (0 : K) < 2 ^ k := pow_pos (by norm_num) k
    by_cases hx1 : x ≤ 1
    · nlinarith
    · have hone : ((2 : Nat) : K) ^ (0 : ℤ) ≤ x := by
        rw [zpow_zero]
        exact (not_le.1 hx1).le
      have hlog0 : 0 ≤ Int.log 2 x := (Int.zpow_le_iff_le_log (by norm_num) hpos).1 hone
      have hk23 : k = 23 := by
        have he : floatSpacingExp x = Int.log 2 x - 23 := by
          unfold floatSpacingExp
          rw [habs, max_eq_left (by omega)]
        omega
      subst hk23
      have e24 : (2 : K) ^ (-24 : ℤ) = 1 / 2 ^ 24 := by
        rw [zpow_neg, one_div]
        norm_cast
      rw [e24] at h
      have : x * 2 ^ 23 ≤ (1 + 1 / 2 ^ 24) * 2 ^ 23 :=
        mul_le_mul_of_nonneg_right h (by positivity)
      calc x * 2 ^ 23 ≤ (1 + 1 / 2 ^ 24) * 2 ^ 23 := this
        _ = 2 ^ 23 + 1 / 2 := by norm_num

/-- A value above `1 + 2^-24` narrows to a value above `1`. -/
theorem one_lt_narrowToFloat {K : Type} [LinearOrderedField K] [FloorRing K] {x : K}
    (h : 1 + (2 : K) ^ (-24 : ℤ) < x) : 1 < narrowToFloat x := by
  have h24 : (0 : K) < 2 ^ (-24 : ℤ) := zpow_pos (by norm_num) _
  have hx1 : 1 < x := by linarith
  have hpos : 0 < x := by linarith
  have habs : |x| = x := abs_of_pos hpos
  have hone : ((2 : Nat) : K) ^ (0 : ℤ) ≤ x := by
    rw [zpow_zero]
    exact hx1.le
  have hlog0 : 0 ≤ Int.log 2 x := (Int.zpow_le_iff_le_log (by norm_num) hpos).1 hone
  have he : floatSpacingExp x = Int.log 2 x - 23 := by
    unfold floatSpacingExp
    rw [habs, max_eq_left (by omega)]
  have hu := spacing_pos x
  by_cases hl : Int.log 2 x = 0
  · have he' : floatSpacingExp x = -((23 : Nat) : ℤ) := by
      rw [he, hl]
      norm_num
    have hu' : (2 : K) ^ floatSpacingExp x = (2 ^ 23)⁻¹ := by
      rw [he', zpow_neg, zpow_natCast]
    have e24 : (2 : K) ^ (-24 : ℤ) = 1 / 2 ^ 24 := by
      rw [zpow_neg, one_div]
      norm_cast
    rw [e24] at h
    have hx : (((2 : ℤ) ^ 23 : ℤ) : K) + 1 / 2 < x * 2 ^ 23 := by
      have : (1 + 1 / 2 ^ 24) * 2 ^ 23 < x * 2 ^ 23 :=
        mul_lt_mul_of_pos_right h (by positivity)
      calc (((2 : ℤ) ^ 23 : ℤ) : K) + 1 / 2 = (1 + 1 / 2 ^ 24) * 2 ^ 23 := by norm_num
        _ < x * 2 ^ 23 := this
    have hr := lt_roundHalfEven hx
    have hr' : ((2 : K) ^ 23 + 1) ≤ (roundHalfEven (x * 2 ^ 23) : K) := by
      exact_mod_cast hr
    unfold narrowToFloat
    rw [hu', div_inv_eq_mul, ← div_eq_mul_inv, lt_div_iff₀ (by positivity)]
    linarith
  · have hl1 : 1 ≤ Int.log 2 x := by omega
    have hself : ((2 : Nat) : K) ^ Int.log 2 x ≤ x := Int.zpow_log_le_self (by norm_num) hpos
    have h2 : ((2 : Nat) : K) = 2 := by norm_num
    rw [h2] at hself
    have hsplit : (2 : K) ^ Int.log 2 x = 2 ^ 23 * 2 ^ floatSpacingExp x := by
      rw [he, show Int.log 2 x = 23 + (Int.log 2 x - 23) by ring, zpow_add₀ (by norm_num)]
      norm_num
    have hx : (((2 : ℤ) ^ 23 : ℤ) : K) - 1 / 2 ≤ x / 2 ^ floatSpacingExp x := by
      rw [le_div_iff₀ hu]
      push_cast
      nlinarith
    have hr := le_roundHalfEven_of_sub_half_le (two_pow_even (by norm_num)) hx
    have hr' : (2 : K) ^ 23 ≤ (roundHalfEven (x / 2 ^ floatSpacingExp x) : K) := by
      exact_mod_cast hr
    have hge : (2 : K) ^ (1 : ℤ) ≤ 2 ^ Int.log 2 x :=
      zpow_le_zpow_right₀ (by norm_num) hl1
    rw [zpow_one] at hge
    unfold narrowToFloat
    nlinarith

theorem one_lt_narrowToFloat_iff {K : Type} [LinearOrderedField K] [FloorRing K] (x : K) :
    1 < narrowToFloat x ↔ 1 + (2 : K) ^ (-24 : ℤ) < x := by
  constructor
  · intro h
    by_contra hc
    exact absurd (narrowToFloat_le_one (not_lt.1 hc)) (not_le.2 h)
  · exact one_lt_narrowToFloat

theorem roundHalfEven_zero {K : Type} [LinearOrderedField K] [FloorRing K] :
    roundHalfEven (0 : K) = 0 := by
  unfold roundHalfEven
  simp

theorem narrowToFloat_zero {K : Type} [LinearOrderedField K] [FloorRing K] :
    narrowToFloat (0 : K) = 0 := by
  unfold narrowToFloat
  rw [zero_div, roundHalfEven_zero]
  simp

/-- With the three arguments present and the input read, `main` is the test on the
narrowed value followed by the computation of `h`. -/
theorem main_after_read {K : Type} [LinearOrderedField K] [FloorRing K] (argc : Nat)
    (img : Plane K) (a : K) (hargc : 4 ≤ argc) :
    DuranBuades.main argc (some img) a =
      if narrowToFloat a < 0 ∨ narrowToFloat a > 1 then .error ()
      else .ok { mosaicked := img.data, beta := narrowToFloat a,
                 h := if narrowToFloat a ≠ 0 then (310 * narrowToFloat a - 214) / 3 else 0,
                 width := img.nx, height := img.ny } := by
  have hargc' : ¬ argc < 4 := by omega
  simp only [DuranBuades.main, if_neg hargc']

/-- The test of `main` fails exactly on the values below `-2^-150` or above `1 + 2^-24`. -/
theorem beta_test_iff {K : Type} [LinearOrderedField K] [FloorRing K] (a : K) :
    (narrowToFloat a < 0 ∨ narrowToFloat a > 1) ↔
      (a < -(2 : K) ^ (-150 : ℤ) ∨ 1 + (2 : K) ^ (-24 : ℤ) < a) := by
  rw [narrowToFloat_neg_iff, gt_iff_lt, one_lt_narrowToFloat_iff]

/-- A value that passes the test reaches the demosaicking call. -/
theorem main_reaches_call {K : Type} [LinearOrderedField K] [FloorRing K] (argc : Nat)
    (img : Plane K) (a : K) (hargc : 4 ≤ argc)
    (h : ¬ (a < -(2 : K) ^ (-150 : ℤ) ∨ 1 + (2 : K) ^ (-24 : ℤ) < a)) :
    DuranBuades.main argc (some img) a =
      .ok { mosaicked := img.data, beta := narrowToFloat a,
            h := if narrowToFloat a ≠ 0 then (310 * narrowToFloat a - 214) / 3 else 0,
            width := img.nx, height := img.ny } := by
  rw [main_after_read argc img a hargc, if_neg (fun hc => h ((beta_test_iff a).1 hc))]

/-- A value that fails the test ends `main` with failure. -/
theorem main_fails {K : Type} [LinearOrderedField K] [FloorRing K] (argc : Nat)
    (img : Plane K) (a : K) (hargc : 4 ≤ argc)
    (h : a < -(2 : K) ^ (-150 : ℤ) ∨ 1 + (2 : K) ^ (-24 : ℤ) < a) :
    DuranBuades.main argc (some img) a = .error () := by
  rw [main_after_read argc img a hargc, if_pos ((beta_test_iff a).2 h)]

theorem two_zpow_neg_150_pos {K : Type} [LinearOrderedField K] :
    (0 : K) < (2 : K) ^ (-150 : ℤ) :=
  zpow_pos (by norm_num) _

theorem two_zpow_neg_24_pos {K : Type} [LinearOrderedField K] :
    (0 : K) < (2 : K) ^ (-24 : ℤ) :=
  zpow_pos (by norm_num) _

/-- C10 as stated fails in both directions of "outside `(0, 1]`": the values `0`,
`1.00000001` and `-1e-50` are outside `(0, 1]`, and on each of them `main` goes on to the
demosaicking call; at `0` with `beta = 0` and `h = 0`. -/
theorem beta_zero_reaches_demosaicking :
    (¬ ((0 : ℚ) < 0 ∧ (0 : ℚ) ≤ 1) ∧
      ∃ call : ChainCall ℚ,
        DuranBuades.main 4 (some (flatPlane 2 2 0)) (0 : ℚ) = .ok call ∧
          call.beta = 0 ∧ call.h = 0) ∧
    (¬ ((0 : ℚ) < 1 + 1 / 10 ^ 8 ∧ (1 + 1 / 10 ^ 8 : ℚ) ≤ 1) ∧
      ∃ call : ChainCall ℚ,
        DuranBuades.main 4 (some (flatPlane 2 2 0)) (1 + 1 / 10 ^ 8 : ℚ) = .ok call) ∧
    (¬ ((0 : ℚ) < -(1 / 10 ^ 50) ∧ (-(1 / 10 ^ 50) : ℚ) ≤ 1) ∧
      ∃ call : ChainCall ℚ,
        DuranBuades.main 4 (some (flatPlane 2 2 0)) (-(1 / 10 ^ 50) : ℚ) = .ok call) := by
  have h150 := two_zpow_neg_150_pos (K := ℚ)
  have h24 := two_zpow_neg_24_pos (K := ℚ)
  have e150 : (2 : ℚ) ^ (-150 : ℤ) = 1 / 2 ^ 150 := by
    rw [zpow_neg, one_div]
    norm_cast
  have e24 : (2 : ℚ) ^ (-24 : ℤ) = 1 / 2 ^ 24 := by
    rw [zpow_neg, one_div]
    norm_cast
  refine ⟨⟨by norm_num, ?_⟩, ⟨by norm_num, ?_⟩, ⟨by norm_num, ?_⟩⟩
  · have hm := main_reaches_call 4 (flatPlane 2 2 0) (0 : ℚ) (le_refl 4)
      (by rw [not_or]; exact ⟨by linarith, by linarith⟩)
    refine ⟨_, hm, narrowToFloat_zero, ?_⟩
    simp [narrowToFloat_zero]
  · exact ⟨_, main_reaches_call 4 (flatPlane 2 2 0) (1 + 1 / 10 ^ 8 : ℚ) (le_refl 4)
      (by rw [not_or, e24]; exact ⟨by linarith, by norm_num⟩)⟩
  · exact ⟨_, main_reaches_call 4 (flatPlane 2 2 0) (-(1 / 10 ^ 50) : ℚ) (le_refl 4)
      (by rw [not_or, e150]; exact ⟨by norm_num, by linarith⟩)⟩

/-- C10, amended. With the three arguments present and the input read, `main` narrows the
value of the `beta` argument to `float` and returns failure before the demosaicking call
exactly when the narrowed value is below `0` or above `1`, which is exactly when the value
itself is below `-2^-150` or above `1 + 2^-24`; otherwise it reaches the call and passes
the narrowed value on.  Every value in `[0, 1]` reaches the call, `0` with `h = 0`; so a
failure means a value below `0` or above `1`. -/
theorem beta_range_check {K : Type} [LinearOrderedField K] [FloorRing K] (argc : Nat)
    (img : Plane K) (betaArg : K) (hargc : 4 ≤ argc) :
    (DuranBuades.main argc (some img) betaArg = .error () ↔
      (narrowToFloat betaArg < 0 ∨ 1 < narrowToFloat betaArg)) ∧
    (DuranBuades.main argc (some img) betaArg = .error () ↔
      (betaArg < -(2 : K) ^ (-150 : ℤ) ∨ 1 + (2 : K) ^ (-24 : ℤ) < betaArg)) ∧
    (DuranBuades.main argc (some img) betaArg ≠ .error () →
      ∃ call : ChainCall K, DuranBuades.main argc (some img) betaArg = .ok call ∧
        call.beta = narrowToFloat betaArg ∧ 0 ≤ call.beta ∧ call.beta ≤ 1 ∧
        (call.beta = 0 → call.h = 0)) ∧
    (0 ≤ betaArg → betaArg ≤ 1 →
      ∃ call : ChainCall K, DuranBuades.main argc (some img) betaArg = .ok call ∧
        call.beta = narrowToFloat betaArg ∧ (betaArg = 0 → call.h = 0)) ∧
    (DuranBuades.main argc (some img) betaArg = .error () → betaArg < 0 ∨ 1 < betaArg) := by
  have h150 := two_zpow_neg_150_pos (K := K)
  have h24 := two_zpow_neg_24_pos (K := K)
  have hiff : DuranBuades.main argc (some img) betaArg = .error () ↔
      (betaArg < -(2 : K) ^ (-150 : ℤ) ∨ 1 + (2 : K) ^ (-24 : ℤ) < betaArg) := by
    constructor
    · intro herr
      by_contra hc
      rw [main_reaches_call argc img betaArg hargc hc] at herr
      exact Except.noConfusion herr
    · exact main_fails argc img betaArg hargc
  refine ⟨?_, hiff, ?_, ?_, ?_⟩
  · rw [hiff, ← beta_test_iff]
  · intro hne
    have hc : ¬ (betaArg < -(2 : K) ^ (-150 : ℤ) ∨ 1 + (2 : K) ^ (-24 : ℤ) < betaArg) :=
      fun hc => hne (hiff.2 hc)
    have hc' : ¬ (narrowToFloat betaArg < 0 ∨ narrowToFloat betaArg > 1) :=
      fun hn => hc ((beta_test_iff betaArg).1 hn)
    rw [not_or] at hc'
    refine ⟨_, main_reaches_call argc img betaArg hargc hc, rfl, not_lt.1 hc'.1,
      not_lt.1 hc'.2, ?_⟩
    intro h0
    have h0' : narrowToFloat betaArg = 0 := h0
    simp [h0']
  · intro h0 h1
    have hc : ¬ (betaArg < -(2 : K) ^ (-150 : ℤ) ∨ 1 + (2 : K) ^ (-24 : ℤ) < betaArg) := by
      rw [not_or]
      exact ⟨by linarith, by linarith⟩
    refine ⟨_, main_reaches_call argc img betaArg hargc hc, rfl, ?_⟩
    intro hz
    subst hz
    simp [narrowToFloat_zero]
  · intro herr
    rcases hiff.1 herr with h | h
    · exact Or.inl (by linarith)
    · exact Or.inr (by linarith)

/-- C10, amended, at the values `1/2` (reaches the call), `3/2` (failure) and `1.00000001`
(no failure, the value narrows to `1`). -/
theorem beta_range_check_witness :
    (4 ≤ 4 ∧ (0 : ℚ) ≤ 1 / 2 ∧ (1 / 2 : ℚ) ≤ 1 ∧
      ((3 / 2 : ℚ) < -(2 : ℚ) ^ (-150 : ℤ) ∨ 1 + (2 : ℚ) ^ (-24 : ℤ) < 3 / 2)) ∧
    (∃ call : ChainCall ℚ,
      DuranBuades.main 4 (some (flatPlane 2 2 0)) (1 / 2 : ℚ) = .ok call ∧
        call.beta = narrowToFloat (1 / 2 : ℚ) ∧ ((1 / 2 : ℚ) = 0 → call.h = 0)) ∧
    DuranBuades.main 4 (some (flatPlane 2 2 0)) (3 / 2 : ℚ) = .error () ∧
    DuranBuades.main 4 (some (flatPlane 2 2 0)) (1 + 1 / 10 ^ 8 : ℚ) ≠ .error () := by
  have e24 : (2 : ℚ) ^ (-24 : ℤ) = 1 / 2 ^ 24 := by
    rw [zpow_neg, one_div]
    norm_cast
  have h150 := two_zpow_neg_150_pos (K := ℚ)
  have h1 : (0 : ℚ) ≤ 1 / 2 := by norm_num
  have h2 : (1 / 2 : ℚ) ≤ 1 := by norm_num
  have h3 : (3 / 2 : ℚ) < -(2 : ℚ) ^ (-150 : ℤ) ∨ 1 + (2 : ℚ) ^ (-24 : ℤ) < 3 / 2 := by
    right
    rw [e24]
    norm_num
  have h4 : ¬ ((1 + 1 / 10 ^ 8 : ℚ) < -(2 : ℚ) ^ (-150 : ℤ) ∨
      1 + (2 : ℚ) ^ (-24 : ℤ) < 1 + 1 / 10 ^ 8) := by
    rw [not_or, e24]
    exact ⟨by linarith, by norm_num⟩
  exact ⟨⟨le_refl 4, h1, h2, h3⟩,
    (beta_range_check 4 (flatPlane 2 2 0) (1 / 2 : ℚ) (le_refl 4)).2.2.2.1 h1 h2,
    (beta_range_check 4 (flatPlane 2 2 0) (3 / 2 : ℚ) (le_refl 4)).2.1.2 h3,
    fun herr =>
      h4 ((beta_range_check 4 (flatPlane 2 2 0) (1 + 1 / 10 ^ 8 : ℚ) (le_refl 4)).2.1.1 herr)⟩

/-! ## C8: the number of populated sites -/

theorem length_filter_six (q : Nat → Prop) [DecidablePred q] (a b c d e f : Nat) :
    ([a, b, c, d, e, f].filter (fun k => decide (q k))).length =
      (if q a then 1 else 0) + (if q b then 1 else 0) + (if q c then 1 else 0) +
      (if q d then 1 else 0) + (if q e then 1 else 0) + (if q f then 1 else 0) := by
  simp only [List.filter_cons, List.filter_nil, decide_eq_true_eq]
  split_ifs <;> rfl

theorem rawStores_keys_in_plane {K : Type} (cw ch : Nat) (f0 f1 : Buffer K) (p : Nat)
    (hp : p < 3) (i : Nat) (hi : i < cw * ch) :
    (((rawStores cw ch (cw + ch) f0 f1 i).map Prod.fst).filter
      (fun k => p * ((cw + ch) * (cw + ch)) ≤ k ∧
        k < (p + 1) * ((cw + ch) * (cw + ch)))).length = 2 := by
  rw [rawStores_keys cw ch f0 f1 i hi]
  have hlt := siteBase_succ_lt hi
  generalize (cw + ch) * (cw + ch) = W at hlt ⊢
  generalize siteBase cw ch i = B at hlt ⊢
  refine (length_filter_six (fun k => p * W ≤ k ∧ k < (p + 1) * W) _ _ _ _ _ _).trans ?_
  beta_reduce
  rcases (by omega : p = 0 ∨ p = 1 ∨ p = 2) with rfl | rfl | rfl <;>
    split_ifs <;> omega

theorem length_filter_flatMap_rawStores {K : Type} (cw ch : Nat) (f0 f1 : Buffer K) (p : Nat)
    (hp : p < 3) (l : List Nat) (hl : ∀ i, i ∈ l → i < cw * ch) :
    ((l.flatMap (fun i => (rawStores cw ch (cw + ch) f0 f1 i).map Prod.fst)).filter
      (fun k => p * ((cw + ch) * (cw + ch)) ≤ k ∧
        k < (p + 1) * ((cw + ch) * (cw + ch)))).length = 2 * l.length := by
  induction l with
  | nil => rfl
  | cons i l ih =>
    rw [List.flatMap_cons, List.filter_append, List.length_append,
      rawStores_keys_in_plane cw ch f0 f1 p hp i (hl i (List.mem_cons_self i l)),
      ih (fun j hj => hl j (List.mem_cons_of_mem i hj)), List.length_cons]
    omega

/-- C8 as stated fails on two 1 by 1 frames: the one photosite populates two cells of
plane 0, not one. -/
theorem raw_merge_populates_two_cells :
    (rawWritten 1 1 (flatPlane 1 1 100).data (flatPlane 1 1 200).data 0).card ≠ 1 * 1 := by
  decide

/-- C8, amended. In each of the three planes the raw merge loop assigns
`2 * cfaWidth * cfaHeight` distinct cells: two per photosite, one from each frame. -/
theorem raw_merge_populated_count {K : Type} (cfaWidth cfaHeight : Nat)
    (frame0 frame1 : Buffer K) (p : Nat) (hp : p < 3) :
    (rawWritten cfaWidth cfaHeight frame0 frame1 p).card = 2 * (cfaWidth * cfaHeight) := by
  unfold rawWritten
  rw [List.toFinset_card_of_nodup
      ((rawTrace_keys_nodup cfaWidth cfaHeight frame0 frame1).filter _),
    rawTrace, List.map_flatMap,
    length_filter_flatMap_rawStores cfaWidth cfaHeight frame0 frame1 p hp _
      (fun i hi => List.mem_range.1 hi),
    List.length_range]

/-- C8, amended, at two 6 by 4 frames and the green plane. -/
theorem raw_merge_populated_count_witness :
    1 < 3 ∧
    (rawWritten 6 4 (flatPlane 6 4 100).data (flatPlane 6 4 200).data 1).card = 2 * (6 * 4) :=
  ⟨by decide,
   raw_merge_populated_count 6 4 (flatPlane 6 4 100).data (flatPlane 6 4 200).data 1
     (by decide)⟩

/-! ## C3: the pixels that the derotation skips -/

theorem foldl_applyStores {α K : Type} (f : α → List (Nat × K)) (l : List α) (b : Buffer K) :
    l.foldl (fun acc a => applyStores acc (f a)) b = applyStores b (l.flatMap f) := by
  induction l generalizing b with
  | nil => rfl
  | cons a l ih => rw [List.foldl_cons, ih, List.flatMap_cons, applyStores_append]

/-- The derotation as one run of assignments. -/
theorem derotate_eq {K : Type} [LinearOrderedField K] [FloorRing K] (step : K)
    (data_out : Buffer K) (cw w h rW rH : Nat) (b : Buffer K) :
    derotate step data_out cw w h rW rH b =
      applyStores b ((List.range rH).flatMap fun row =>
        (List.range rW).flatMap fun col => derotStores step data_out cw w h rW rH row col) := by
  have hrow : derotRow step data_out cw w h rW rH =
      fun acc row => applyStores acc
        ((List.range rW).flatMap fun col =>
          derotStores step data_out cw w h rW rH row col) := by
    funext acc row
    exact foldl_applyStores _ _ _
  rw [derotate, hrow, foldl_applyStores]

/-- An assignment made for pixel `(row, col)` means that the pixel is not skipped, and it
addresses the cell of that pixel in one of the three planes. -/
theorem mem_derotStores_keys {K : Type} [LinearOrderedField K] [FloorRing K] (step : K)
    (data_out : Buffer K) (cw w h rW rH row col k : Nat)
    (hk : k ∈ (derotStores step data_out cw w h rW rH row col).map Prod.fst) :
    skipped h w ⌊srcRow step cw row col⌋₊ ⌊srcCol step row col⌋₊ = false ∧
      ∃ i, i < 3 ∧ k = row * rW + col + i * rW * rH := by
  by_cases hs : skipped h w ⌊srcRow step cw row col⌋₊ ⌊srcCol step row col⌋₊ = true
  · simp only [derotStores, if_pos hs, List.map_nil, List.not_mem_nil] at hk
  · simp only [derotStores, if_neg hs, List.map_map] at hk
    obtain ⟨i, hi, rfl⟩ := List.mem_map.1 hk
    exact ⟨by simpa using hs, i, List.mem_range.1 hi, rfl⟩

/-- A cell of a plane and the plane number determine the offset in the stacked planes. -/
theorem plane_offset_inj {P m i m' i' : Nat} (hm : m < P) (hm' : m' < P)
    (h : m + i * P = m' + i' * P) : m = m' := by
  have h1 : (m + i * P) % P = m := by
    rw [Nat.add_mul_mod_self_right, Nat.mod_eq_of_lt hm]
  have h2 : (m' + i' * P) % P = m' := by
    rw [Nat.add_mul_mod_self_right, Nat.mod_eq_of_lt hm']
  rw [← h1, ← h2, h]

/-- The derotation leaves the cells of a skipped pixel as it found them. -/
theorem derotate_skipped_cell {K : Type} [LinearOrderedField K] [FloorRing K] (step : K)
    (data_out : Buffer K) (cw w h rW rH : Nat) (b : Buffer K) (row col i : Nat)
    (hrow : row < rH) (hcol : col < rW)
    (hs : skipped h w ⌊srcRow step cw row col⌋₊ ⌊srcCol step row col⌋₊ = true) :
    derotate step data_out cw w h rW rH b (row * rW + col + i * rW * rH) =
      b (row * rW + col + i * rW * rH) := by
  rw [derotate_eq]
  apply applyStores_untouched
  intro hmem
  rw [List.map_flatMap, List.mem_flatMap] at hmem
  obtain ⟨row', hrow', hmem⟩ := hmem
  rw [List.map_flatMap, List.mem_flatMap] at hmem
  obtain ⟨col', hcol', hmem⟩ := hmem
  obtain ⟨hkeep, i', -, hidx⟩ := mem_derotStores_keys step data_out cw w h rW rH _ _ _ hmem
  have hr' : row' < rH := List.mem_range.1 hrow'
  have hc' : col' < rW := List.mem_range.1 hcol'
  have e1 : i * rW * rH = i * (rH * rW) := by ring
  have e2 : i' * rW * rH = i' * (rH * rW) := by ring
  rw [e1, e2] at hidx
  have hcell := plane_offset_inj (offset_lt hcol hrow) (offset_lt hc' hr') hidx
  obtain ⟨hy, hx⟩ := offset_inj hcol hc' hcell
  subst hy
  subst hx
  rw [hs] at hkeep
  exact Bool.noConfusion hkeep

theorem finish_ok {K : Type} [LinearOrderedField K] [FloorRing K] (ext : Ext K)
    (m : Merged K) (h1 : ext.malloc 436 = true) (h2 : ext.malloc 497 = true) :
    finish ext m =
      .ok { data_rot := derotate ext.step
              (clampLoop (3 * m.width * m.width)
                (ext.ssd_demosaic_chain m.data_in m.width m.width
                  (if m.landscape then m.cfaWidth else m.cfaHeight)
                  (if m.landscape then m.cfaHeight else m.cfaWidth)
                  (ext.cfa_mask m.width m.width m.cfaWidth m.cfaHeight)))
              m.cfaWidth m.width m.height
              (rotWidthOf ext.step m.cfaWidth) (rotHeightOf ext.step m.height m.cfaWidth)
              ext.memRot
            rotWidth := rotWidthOf ext.step m.cfaWidth
            rotHeight := rotHeightOf ext.step m.height m.cfaWidth } := by
  have n1 : ¬ (ext.malloc 436 = false) := by rw [h1]; exact Bool.noConfusion
  have n2 : ¬ (ext.malloc 497 = false) := by rw [h2]; exact Bool.noConfusion
  simp only [finish, if_neg n1, if_neg n2]

theorem run_ssd_raw_of_merge {K : Type} [LinearOrderedField K] [FloorRing K] (ext : Ext K)
    (in0 in1 : Option (Plane K)) (m : Merged K) (hm : mergeRaw ext in0 in1 = .ok m) :
    run_ssd_raw ext in0 in1 = finish ext m := by
  simp only [run_ssd_raw, hm]

theorem sample_rotWidth : rotWidthOf sampleExt.step 4 = 5 := by
  have h : ⌊((4 : Nat) : ℚ) / sampleExt.step⌋₊ = 5 := by
    rw [Nat.floor_eq_iff (by norm_num [sampleExt])]
    norm_num [sampleExt]
  rw [rotWidthOf, h]
  rfl

theorem sample_rotHeight : rotHeightOf sampleExt.step 7 4 = 4 := by
  have h : ⌊((7 - 4 : Nat) : ℚ) / sampleExt.step⌋₊ = 4 := by
    rw [Nat.floor_eq_iff (by norm_num [sampleExt])]
    norm_num [sampleExt]
  rw [rotHeightOf, h]
  rfl

theorem sample_skipped :
    skipped 7 7 ⌊srcRow sampleExt.step 4 3 0⌋₊ ⌊srcCol sampleExt.step 3 0⌋₊ = true := by
  have h : ⌊srcRow sampleExt.step 4 3 0⌋₊ = 6 := by
    rw [Nat.floor_eq_iff (by norm_num [srcRow, sampleExt])]
    norm_num [srcRow, sampleExt]
  rw [h]
  decide

/-- C3 at two 4 by 3 frames, with fresh memory that holds `7`: the rotated image is 5 by 4,
its pixel `(row 3, col 0)` has the source row `ur = 6 > height - 2 = 5` and is skipped, and
in all three planes the cell of that pixel handed to the writer holds the `7` that `malloc`
left there, not `0`. -/
theorem skipped_pixel_keeps_fresh_memory :
    ∃ out : Written ℚ,
      run_ssd sampleExt (rawArgs (flatPlane 4 3 100) (flatPlane 4 3 200)) = .ok out ∧
      out.rotWidth = 5 ∧ out.rotHeight = 4 ∧
      skipped 7 7 ⌊srcRow sampleExt.step 4 3 0⌋₊ ⌊srcCol sampleExt.step 3 0⌋₊ = true ∧
      out.data_rot (3 * 5 + 0 + 0 * 5 * 4) = 7 ∧
      out.data_rot (3 * 5 + 0 + 1 * 5 * 4) = 7 ∧
      out.data_rot (3 * 5 + 0 + 2 * 5 * 4) = 7 ∧
      out.data_rot (3 * 5 + 0 + 0 * 5 * 4) ≠ 0 := by
  have hrun :=
    ((run_ssd_of_raw sampleExt (rawArgs (flatPlane 4 3 100) (flatPlane 4 3 200)) rfl).trans
      (run_ssd_raw_of_merge sampleExt _ _ _
        (mergeRaw_ok sampleExt (flatPlane 4 3 100) (flatPlane 4 3 200) rfl rfl rfl))).trans
      (finish_ok sampleExt _ rfl rfl)
  refine ⟨_, hrun, sample_rotWidth, sample_rotHeight, sample_skipped, ?_⟩
  have hcell : ∀ (d : Buffer ℚ) (i : Nat),
      derotate sampleExt.step d 4 7 7 (rotWidthOf sampleExt.step 4)
        (rotHeightOf sampleExt.step 7 4) sampleExt.memRot (3 * 5 + 0 + i * 5 * 4) = 7 := by
    intro d i
    rw [sample_rotWidth, sample_rotHeight,
      derotate_skipped_cell sampleExt.step d 4 7 7 5 4 sampleExt.memRot 3 0 i
        (by decide) (by decide) sample_skipped]
    rfl
  refine ⟨hcell _ 0, hcell _ 1, hcell _ 2, ?_⟩
  intro hz
  have h0 := (hcell _ 0).symm.trans hz
  norm_num at h0

/-! ## C13: the reads of the merged-input loop -/

/-- The values that an iteration of the merged-input loop assigns are the samples found at
its reads. -/
theorem mergedStores_values {K : Type} (cw ch w : Nat) (f0 f1 f2 : Buffer K) (i : Nat) :
    (mergedStores cw ch w f0 f1 f2 i).map Prod.snd =
      (mergedReads cw ch w i).map (fun rd => inputPlane f0 f1 f2 rd.1 rd.2) := by
  unfold mergedStores mergedReads
  split
  · simp only []
    split
    · rfl
    · split <;> rfl
  · rfl

/-- In the landscape branch a read of the red plane stays below `width * width`, and every
read of the green or of the blue plane is at `width * width` or beyond. -/
theorem mergedReads_landscape {cw ch i : Nat} (hl : cw > ch) (hi : i < cw * ch)
    (rd : Nat × Nat) (hrd : rd ∈ mergedReads cw ch (cw + ch) i) :
    (rd.1 = 0 → rd.2 < (cw + ch) * (cw + ch)) ∧
    (rd.1 ≠ 0 → (cw + ch) * (cw + ch) ≤ rd.2) := by
  obtain ⟨ha, hb⟩ := mod_div_bounds hi
  have hx : i % cw + i / cw + 1 < cw + ch := by omega
  have hy : cw - i % cw - 1 + i / cw < cw + ch := by omega
  have hlt := offset_lt hx hy
  simp only [mergedReads, if_pos hl] at hrd
  generalize (cw - i % cw - 1 + i / cw) * (cw + ch) = yw at hrd hlt
  generalize (cw + ch) * (cw + ch) = W at hrd hlt ⊢
  generalize i % cw = a at ha hx hy hrd hlt
  generalize i / cw = b at hb hx hy hrd hlt
  split at hrd
  · simp only [List.mem_cons, List.mem_singleton, List.not_mem_nil, or_false] at hrd
    rcases hrd with rfl | rfl <;> constructor <;> intro h <;> dsimp only at h ⊢ <;> omega
  · split at hrd
    · simp only [List.mem_cons, List.mem_singleton, List.not_mem_nil, or_false] at hrd
      rcases hrd with rfl | rfl <;> constructor <;> intro h <;> dsimp only at h ⊢ <;> omega
    · simp only [List.mem_cons, List.mem_singleton, List.not_mem_nil, or_false] at hrd
      rcases hrd with rfl | rfl <;> constructor <;> intro h <;> dsimp only at h ⊢ <;> omega

/-- For every landscape geometry some photosite makes the loop read the green plane at
`width * width` or beyond: photosite `cfaWidth - 1`, whose row is `0`. -/
theorem mergedReads_outside_exists {cw ch : Nat} (hl : cw > ch) (hch : 1 ≤ ch) :
    ∃ i, i < cw * ch ∧ ∃ rd, rd ∈ mergedReads cw ch (cw + ch) i ∧
      rd.1 = 1 ∧ (cw + ch) * (cw + ch) ≤ rd.2 := by
  have hi : cw - 1 < cw * ch := by
    have : cw * 1 ≤ cw * ch := Nat.mul_le_mul_left cw hch
    omega
  have hmod : (cw - 1) % cw = cw - 1 := Nat.mod_eq_of_lt (by omega)
  have hdiv : (cw - 1) / cw = 0 := Nat.div_eq_of_lt (by omega)
  have hy : cw - (cw - 1) - 1 + 0 = 0 := by omega
  refine ⟨cw - 1, hi, (1, 0 * (cw + ch) + (cw - 1 + 0) + (cw + ch) * (cw + ch)), ?_, rfl, ?_⟩
  · simp [mergedReads, hl, hmod, hdiv, hy]
  · simp only []
    omega

/-- C13 at the geometry `2x1` with 3 by 3 planes: photosite 1 has row 0, an even row, and
the loop reads the green plane at the indices 10 and 11, which are not below
`width * width = 9`; the assignments of that iteration store those two samples. -/
theorem merged_landscape_reads_past_plane :
    (2 > 1 ∧ 1 ≥ 1 ∧ 1 < 2 * 1) ∧
    mergedReads 2 1 (2 + 1) 1 = [(1, 10), (1, 11)] ∧
    ¬ (10 < (2 + 1) * (2 + 1)) ∧ ¬ (11 < (2 + 1) * (2 + 1)) ∧
    (∀ f0 f1 f2 : Buffer ℚ,
      mergedStores 2 1 (2 + 1) f0 f1 f2 1 = [(10, f1 10), (11, f1 11)]) :=
  ⟨by decide, by decide, by decide, by decide, fun _ _ _ => rfl⟩

/-! ## C12: the source coordinates of a destination pixel -/

/-- A column of the rotated image, and the one after it, project onto the diagonal within
`cfaWidth`; the same holds for rows and `cfaHeight`. -/
theorem succ_mul_step_le {K : Type} [LinearOrderedField K] [FloorRing K] {step : K}
    (hstep : 0 < step) {n m : Nat} (h : m < ⌊(n : K) / step⌋₊) :
    ((m : K) + 1) * step ≤ (n : K) := by
  have h0 : (0 : K) ≤ (n : K) / step := div_nonneg (Nat.cast_nonneg n) hstep.le
  have h1 : ((m + 1 : Nat) : K) ≤ (n : K) / step :=
    (Nat.le_floor_iff h0).1 (Nat.succ_le_of_lt h)
  rw [Nat.cast_add, Nat.cast_one] at h1
  calc ((m : K) + 1) * step ≤ (n : K) / step * step :=
        mul_le_mul_of_nonneg_right h1 hstep.le
    _ = (n : K) := div_mul_cancel₀ _ hstep.ne'

/-- The source row of a pixel of the rotated image is at least `step` and below `height`. -/
theorem srcRow_bounds {K : Type} [LinearOrderedField K] [FloorRing K] {step : K}
    (hstep : 0 < step) {cfaWidth cfaHeight row col : Nat}
    (hrow : row < ⌊(cfaHeight : K) / step⌋₊) (hcol : col < ⌊(cfaWidth : K) / step⌋₊) :
    step ≤ srcRow step cfaWidth row col ∧
    srcRow step cfaWidth row col < ((cfaWidth + cfaHeight : Nat) : K) := by
  have hc := succ_mul_step_le hstep hcol
  have hr := succ_mul_step_le hstep hrow
  have hrow0 : (0 : K) ≤ (row : K) * step := mul_nonneg (Nat.cast_nonneg row) hstep.le
  have hcol0 : (0 : K) ≤ (col : K) * step := mul_nonneg (Nat.cast_nonneg col) hstep.le
  unfold srcRow
  rw [Nat.cast_add]
  constructor <;> nlinarith

/-- The source column of a pixel of the rotated image is not negative and below `width`. -/
theorem srcCol_bounds {K : Type} [LinearOrderedField K] [FloorRing K] {step : K}
    (hstep : 0 < step) {cfaWidth cfaHeight row col : Nat}
    (hrow : row < ⌊(cfaHeight : K) / step⌋₊) (hcol : col < ⌊(cfaWidth : K) / step⌋₊) :
    0 ≤ srcCol step row col ∧ srcCol step row col < ((cfaWidth + cfaHeight : Nat) : K) := by
  have hc := succ_mul_step_le hstep hcol
  have hr := succ_mul_step_le hstep hrow
  have hrow0 : (0 : K) ≤ (row : K) * step := mul_nonneg (Nat.cast_nonneg row) hstep.le
  have hcol0 : (0 : K) ≤ (col : K) * step := mul_nonneg (Nat.cast_nonneg col) hstep.le
  unfold srcCol
  rw [Nat.cast_add]
  constructor <;> nlinarith

/-- The distance from a non-negative coordinate to its truncation lies in `[0, 1)`. -/
theorem fract_bounds {K : Type} [LinearOrderedField K] [FloorRing K] {a : K} (ha : 0 ≤ a) :
    0 ≤ a - (⌊a⌋₊ : K) ∧ a - (⌊a⌋₊ : K) < 1 := by
  have h1 := Nat.floor_le ha
  have h2 := Nat.lt_floor_add_one a
  constructor <;> linarith

/-- C12. Derotation source coordinates are well formed: for a positive `step` (as is the
square root of one half over the reals) and a destination pixel with
`row < floor(cfaHeight / step)` and `col < floor(cfaWidth / step)`, the source coordinates
`r` and `c` are not negative; their truncations `ur`, `uc` (natural-number floors) equal
the floors of `r` and `c` and are below `height = width = cfaWidth + cfaHeight`; and the
fractional parts `fr = r - ur`, `fc = c - uc` lie in `[0, 1)`. -/
theorem source_coordinates_well_formed {K : Type} [LinearOrderedField K] [FloorRing K]
    (step : K) (hstep : 0 < step) (cfaWidth cfaHeight row col : Nat)
    (hrow : row < ⌊(cfaHeight : K) / step⌋₊) (hcol : col < ⌊(cfaWidth : K) / step⌋₊) :
    (0 ≤ srcRow step cfaWidth row col ∧ 0 ≤ srcCol step row col) ∧
    ((⌊srcRow step cfaWidth row col⌋₊ : ℤ) = ⌊srcRow step cfaWidth row col⌋ ∧
      (⌊srcCol step row col⌋₊ : ℤ) = ⌊srcCol step row col⌋) ∧
    (⌊srcRow step cfaWidth row col⌋₊ < cfaWidth + cfaHeight ∧
      ⌊srcCol step row col⌋₊ < cfaWidth + cfaHeight) ∧
    (0 ≤ srcRow step cfaWidth row col - (⌊srcRow step cfaWidth row col⌋₊ : K) ∧
      srcRow step cfaWidth row col - (⌊srcRow step cfaWidth row col⌋₊ : K) < 1) ∧
    (0 ≤ srcCol step row col - (⌊srcCol step row col⌋₊ : K) ∧
      srcCol step row col - (⌊srcCol step row col⌋₊ : K) < 1) := by
  obtain ⟨hr1, hr2⟩ := srcRow_bounds hstep hrow hcol
  obtain ⟨hc1, hc2⟩ := srcCol_bounds hstep hrow hcol
  have hr0 : 0 ≤ srcRow step cfaWidth row col := le_trans hstep.le hr1
  exact ⟨⟨hr0, hc1⟩,
    ⟨Int.natCast_floor_eq_floor hr0, Int.natCast_floor_eq_floor hc1⟩,
    ⟨(Nat.floor_lt hr0).2 hr2, (Nat.floor_lt hc1).2 hc2⟩,
    fract_bounds hr0, fract_bounds hc1⟩

/-- C12 over the reals with `step = sqrt(0.5)` at the pixel `(0, 0)` of a 1 by 1 sensor, and
over the rationals with the `double` value of `step` at the pixel `(3, 0)` of a 4 by 3
sensor. -/
theorem source_coordinates_well_formed_witness :
    ((0 < Real.sqrt 0.5 ∧ 0 < ⌊((1 : Nat) : ℝ) / Real.sqrt 0.5⌋₊) ∧
      0 ≤ srcRow (Real.sqrt 0.5) 1 0 0 ∧
      srcRow (Real.sqrt 0.5) 1 0 0 - (⌊srcRow (Real.sqrt 0.5) 1 0 0⌋₊ : ℝ) < 1) ∧
    ((0 < sampleExt.step ∧ 3 < ⌊((3 : Nat) : ℚ) / sampleExt.step⌋₊ ∧
        0 < ⌊((4 : Nat) : ℚ) / sampleExt.step⌋₊) ∧
      0 ≤ srcRow sampleExt.step 4 3 0 ∧
      ⌊srcRow sampleExt.step 4 3 0⌋₊ < 4 + 3 ∧
      srcRow sampleExt.step 4 3 0 - (⌊srcRow sampleExt.step 4 3 0⌋₊ : ℚ) < 1) := by
  have hs : 0 < Real.sqrt 0.5 := Real.sqrt_pos.2 (by norm_num)
  have hone : Real.sqrt 0.5 ≤ 1 := Real.sqrt_le_one.2 (by norm_num)
  have hf : 0 < ⌊((1 : Nat) : ℝ) / Real.sqrt 0.5⌋₊ := by
    rw [Nat.floor_pos, le_div_iff₀ hs]
    simpa using hone
  have hq : 0 < sampleExt.step := by norm_num [sampleExt]
  have hq3 : 3 < ⌊((3 : Nat) : ℚ) / sampleExt.step⌋₊ :=
    Nat.lt_of_lt_of_le (by decide : 3 < 4) (Nat.le_floor (by norm_num [sampleExt]))
  have hq4 : 0 < ⌊((4 : Nat) : ℚ) / sampleExt.step⌋₊ :=
    Nat.lt_of_lt_of_le (by decide : 0 < 5) (Nat.le_floor (by norm_num [sampleExt]))
  have hR := source_coordinates_well_formed (Real.sqrt 0.5) hs 1 1 0 0 hf hf
  have hQ := source_coordinates_well_formed sampleExt.step hq 4 3 3 0 hq3 hq4
  exact ⟨⟨⟨hs, hf⟩, hR.1.1, hR.2.2.2.1.2⟩, ⟨hq, hq3, hq4⟩, hQ.1.1, hQ.2.2.1.1, hQ.2.2.2.1.2⟩

/-! ## C11: the derotation stencil is a convex blend -/

/-- A blend of two values with weights `1 - t` and `t`, `0 <= t <= 1`, stays between any
bounds of the two values. -/
theorem mix_between {K : Type} [LinearOrderedField K] {lo hi a b t : K}
    (ht0 : 0 ≤ t) (ht1 : t ≤ 1) (ha : lo ≤ a ∧ a ≤ hi) (hb : lo ≤ b ∧ b ≤ hi) :
    lo ≤ (1 - t) * a + t * b ∧ (1 - t) * a + t * b ≤ hi := by
  have h1 : 0 ≤ (1 - t) * (a - lo) := mul_nonneg (sub_nonneg.2 ht1) (sub_nonneg.2 ha.1)
  have h2 : 0 ≤ t * (b - lo) := mul_nonneg ht0 (sub_nonneg.2 hb.1)
  have h3 : 0 ≤ (1 - t) * (hi - a) := mul_nonneg (sub_nonneg.2 ht1) (sub_nonneg.2 ha.2)
  have h4 : 0 ≤ t * (hi - b) := mul_nonneg ht0 (sub_nonneg.2 hb.2)
  constructor <;> nlinarith

/-- The value stored by the stencil stays between any bounds of the four samples it reads,
when both fractional parts lie in `[0, 1]`. -/
theorem interpolate_between {K : Type} [LinearOrderedField K] (d : Buffer K)
    (width height ur uc i : Nat) {fr fc lo hi : K}
    (hfr0 : 0 ≤ fr) (hfr1 : fr ≤ 1) (hfc0 : 0 ≤ fc) (hfc1 : fc ≤ 1)
    (h : ∀ k, k ∈ stencil width height ur uc i → lo ≤ d k ∧ d k ≤ hi) :
    lo ≤ interpolate d width height ur uc i fr fc ∧
    interpolate d width height ur uc i fr fc ≤ hi := by
  have h0 := h (stencilBase width height ur uc i) (by simp [stencil])
  have h1 := h (stencilBase width height ur uc i + 1) (by simp [stencil])
  have h2 := h (stencilBase width height ur uc i + width) (by simp [stencil])
  have h3 := h (stencilBase width height ur uc i + width + 1) (by simp [stencil])
  unfold interpolate
  exact mix_between hfr0 hfr1 (mix_between hfc0 hfc1 h0 h1) (mix_between hfc0 hfc1 h2 h3)

/-- The stencil of a kept source cell lies inside the three planes of the dense buffer. -/
theorem stencil_lt {w ur uc i : Nat} (hw : 2 ≤ w) (hkeep : skipped w w ur uc = false)
    (hi : i < 3) : ∀ k, k ∈ stencil w w ur uc i → k < 3 * w * w := by
  have hm := margin_le hw
  have hur : ur ≤ margin w ∧ uc ≤ margin w := by
    simpa [skipped] using hkeep
  have hlast : (ur + 1) * w + (uc + 1) < w * w :=
    offset_lt (show uc + 1 < w by omega) (show ur + 1 < w by omega)
  have e1 : (ur + 1) * w = ur * w + w := by ring
  have e3 : 3 * w * w = w * w + w * w + w * w := by ring
  intro k hk
  simp only [stencil, stencilBase, List.mem_cons, List.mem_singleton, List.not_mem_nil,
    or_false] at hk
  rw [e3]
  rcases (by omega : i = 0 ∨ i = 1 ∨ i = 2) with rfl | rfl | rfl
  · have e : 0 * w * w = 0 := by ring
    omega
  · have e : 1 * w * w = w * w := by ring
    omega
  · have e : 2 * w * w = w * w + w * w := by ring
    omega

/-- The assignments made for a pixel: exactly the three interpolated values, when the pixel
is not skipped. -/
theorem mem_derotStores {K : Type} [LinearOrderedField K] [FloorRing K] (step : K)
    (data_out : Buffer K) (cw w h rW rH row col : Nat) (kv : Nat × K) :
    kv ∈ derotStores step data_out cw w h rW rH row col ↔
      skipped h w ⌊srcRow step cw row col⌋₊ ⌊srcCol step row col⌋₊ = false ∧
      ∃ i, i < 3 ∧ kv = (row * rW + col + i * rW * rH,
        interpolate data_out w h ⌊srcRow step cw row col⌋₊ ⌊srcCol step row col⌋₊ i
          (srcRow step cw row col - (⌊srcRow step cw row col⌋₊ : K))
          (srcCol step row col - (⌊srcCol step row col⌋₊ : K))) := by
  by_cases hs : skipped h w ⌊srcRow step cw row col⌋₊ ⌊srcCol step row col⌋₊ = true
  · simp only [derotStores, if_pos hs, List.not_mem_nil, hs, false_and]
    simp
  · have hs' : skipped h w ⌊srcRow step cw row col⌋₊ ⌊srcCol step row col⌋₊ = false := by
      simpa using hs
    have e : derotStores step data_out cw w h rW rH row col =
        (List.range 3).map fun i =>
          (row * rW + col + i * rW * rH,
           interpolate data_out w h ⌊srcRow step cw row col⌋₊ ⌊srcCol step row col⌋₊ i
             (srcRow step cw row col - (⌊srcRow step cw row col⌋₊ : K))
             (srcCol step row col - (⌊srcCol step row col⌋₊ : K))) := by
      simp only [derotStores, if_neg hs]
    rw [e, List.mem_map]
    constructor
    · rintro ⟨i, hi, rfl⟩
      exact ⟨hs', i, List.mem_range.1 hi, rfl⟩
    · rintro ⟨-, i, hi, rfl⟩
      exact ⟨i, List.mem_range.2 hi, rfl⟩

/-- When every assignment of a run to cell `k` stores the same value, the cell holds that
value at the end. -/
theorem applyStores_written_of_agree {K : Type} (ws : List (Nat × K)) (b : Buffer K)
    {k : Nat} {v : K} (hm : (k, v) ∈ ws) (hag : ∀ v', (k, v') ∈ ws → v' = v) :
    applyStores b ws k = v := by
  induction ws generalizing b with
  | nil => cases hm
  | cons w ws ih =>
    rw [applyStores_cons]
    by_cases hlater : ∃ v', (k, v') ∈ ws
    · obtain ⟨v', hv'⟩ := hlater
      have e : v' = v := hag v' (List.mem_cons_of_mem w hv')
      subst e
      exact ih _ hv' (fun u hu => hag u (List.mem_cons_of_mem w hu))
    · have hk : k ∉ ws.map Prod.fst := by
        intro hmem
        obtain ⟨kv, hkv, hfst⟩ := List.mem_map.1 hmem
        exact hlater ⟨kv.2, by rw [← hfst]; exact hkv⟩
      rw [applyStores_untouched _ _ _ hk]
      rcases List.mem_cons.1 hm with h | h
      · rw [← h]
        exact store_same _ _ _
      · exact absurd ⟨v, h⟩ hlater

/-- After the derotation the cell of a kept pixel holds the value of the stencil. -/
theorem derotate_kept_cell {K : Type} [LinearOrderedField K] [FloorRing K] (step : K)
    (data_out : Buffer K) (cw w h rW rH : Nat) (b : Buffer K) (row col i : Nat)
    (hrow : row < rH) (hcol : col < rW) (hi : i < 3)
    (hs : skipped h w ⌊srcRow step cw row col⌋₊ ⌊srcCol step row col⌋₊ = false) :
    derotate step data_out cw w h rW rH b (row * rW + col + i * rW * rH) =
      interpolate data_out w h ⌊srcRow step cw row col⌋₊ ⌊srcCol step row col⌋₊ i
        (srcRow step cw row col - (⌊srcRow step cw row col⌋₊ : K))
        (srcCol step row col - (⌊srcCol step row col⌋₊ : K)) := by
  rw [derotate_eq]
  apply applyStores_written_of_agree
  · rw [List.mem_flatMap]
    refine ⟨row, List.mem_range.2 hrow, ?_⟩
    rw [List.mem_flatMap]
    refine ⟨col, List.mem_range.2 hcol, ?_⟩
    exact (mem_derotStores step data_out cw w h rW rH row col _).2 ⟨hs, i, hi, rfl⟩
  · intro v' hv'
    rw [List.mem_flatMap] at hv'
    obtain ⟨row', hrow', hv'⟩ := hv'
    rw [List.mem_flatMap] at hv'
    obtain ⟨col', hcol', hv'⟩ := hv'
    obtain ⟨-, i', -, heq⟩ := (mem_derotStores step data_out cw w h rW rH row' col' _).1 hv'
    have hr' : row' < rH := List.mem_range.1 hrow'
    have hc' : col' < rW := List.mem_range.1 hcol'
    have hk : row * rW + col + i * rW * rH = row' * rW + col' + i' * rW * rH :=
      congrArg Prod.fst heq
    have hv : v' = _ := congrArg Prod.snd heq
    have e1 : i * rW * rH = i * (rH * rW) := by ring
    have e2 : i' * rW * rH = i' * (rH * rW) := by ring
    rw [e1, e2] at hk
    have hcell := plane_offset_inj (offset_lt hcol hrow) (offset_lt hc' hr') hk
    have hP : 0 < rH * rW := Nat.mul_pos (by omega) (by omega)
    have hii : i = i' := by
      have : i * (rH * rW) = i' * (rH * rW) := by omega
      exact Nat.eq_of_mul_eq_mul_right hP this
    obtain ⟨hy, hx⟩ := offset_inj hcol hc' hcell
    subst hy
    subst hx
    subst hii
    exact hv

/-- C11. Derotation is a convex blend: for a positive `step` (as is the square root of one
half over the reals), a destination pixel `(row, col)` of the rotated image that is not
skipped, and a colour plane `i`, with `ur`, `uc`, `fr`, `fc` as the loop computes them: the
four stencil weights are not negative and sum to `1`; the stored value is the sum of the
four samples with these weights and it is what the cell of the pixel holds after the loops;
it lies between the smallest and the largest of the four samples; when the dense buffer is
the result of the clamping loop it lies in `[0, 65535]`; and when the four samples are
equal it is their common value. -/
theorem derotation_is_convex_blend {K : Type} [LinearOrderedField K] [FloorRing K]
    (step : K) (hstep : 0 < step) (data_out : Buffer K)
    (cfaWidth cfaHeight row col i ur uc : Nat) (fr fc : K)
    (hrow : row < ⌊(cfaHeight : K) / step⌋₊) (hcol : col < ⌊(cfaWidth : K) / step⌋₊)
    (hur : ur = ⌊srcRow step cfaWidth row col⌋₊) (huc : uc = ⌊srcCol step row col⌋₊)
    (hfr : fr = srcRow step cfaWidth row col - (ur : K))
    (hfc : fc = srcCol step row col - (uc : K))
    (hkeep : skipped (cfaWidth + cfaHeight) (cfaWidth + cfaHeight) ur uc = false)
    (hi : i < 3) :
    (0 ≤ (1 - fr) * (1 - fc) ∧ 0 ≤ (1 - fr) * fc ∧ 0 ≤ fr * (1 - fc) ∧ 0 ≤ fr * fc ∧
      (1 - fr) * (1 - fc) + (1 - fr) * fc + fr * (1 - fc) + fr * fc = 1) ∧
    (interpolate data_out (cfaWidth + cfaHeight) (cfaWidth + cfaHeight) ur uc i fr fc =
      (1 - fr) * (1 - fc) *
        data_out (stencilBase (cfaWidth + cfaHeight) (cfaWidth + cfaHeight) ur uc i)
      + (1 - fr) * fc *
        data_out (stencilBase (cfaWidth + cfaHeight) (cfaWidth + cfaHeight) ur uc i + 1)
      + fr * (1 - fc) *
        data_out (stencilBase (cfaWidth + cfaHeight) (cfaWidth + cfaHeight) ur uc i
          + (cfaWidth + cfaHeight))
      + fr * fc *
        data_out (stencilBase (cfaWidth + cfaHeight) (cfaWidth + cfaHeight) ur uc i
          + (cfaWidth + cfaHeight) + 1)) ∧
    (∀ (rotWidth rotHeight : Nat) (data_rot : Buffer K), row < rotHeight → col < rotWidth →
      derotate step data_out cfaWidth (cfaWidth + cfaHeight) (cfaWidth + cfaHeight)
        rotWidth rotHeight data_rot (row * rotWidth + col + i * rotWidth * rotHeight) =
      interpolate data_out (cfaWidth + cfaHeight) (cfaWidth + cfaHeight) ur uc i fr fc) ∧
    (min
        (min (data_out (stencilBase (cfaWidth + cfaHeight) (cfaWidth + cfaHeight) ur uc i))
          (data_out (stencilBase (cfaWidth + cfaHeight) (cfaWidth + cfaHeight) ur uc i + 1)))
        (min
          (data_out (stencilBase (cfaWidth + cfaHeight) (cfaWidth + cfaHeight) ur uc i
            + (cfaWidth + cfaHeight)))
          (data_out (stencilBase (cfaWidth + cfaHeight) (cfaWidth + cfaHeight) ur uc i
            + (cfaWidth + cfaHeight) + 1)))
      ≤ interpolate data_out (cfaWidth + cfaHeight) (cfaWidth + cfaHeight) ur uc i fr fc ∧
     interpolate data_out (cfaWidth + cfaHeight) (cfaWidth + cfaHeight) ur uc i fr fc ≤
      max
        (max (data_out (stencilBase (cfaWidth + cfaHeight) (cfaWidth + cfaHeight) ur uc i))
          (data_out (stencilBase (cfaWidth + cfaHeight) (cfaWidth + cfaHeight) ur uc i + 1)))
        (max
          (data_out (stencilBase (cfaWidth + cfaHeight) (cfaWidth + cfaHeight) ur uc i
            + (cfaWidth + cfaHeight)))
          (data_out (stencilBase (cfaWidth + cfaHeight) (cfaWidth + cfaHeight) ur uc i
            + (cfaWidth + cfaHeight) + 1)))) ∧
    (∀ dense : Buffer K,
      data_out = clampLoop (3 * (cfaWidth + cfaHeight) * (cfaWidth + cfaHeight)) dense →
      0 ≤ interpolate data_out (cfaWidth + cfaHeight) (cfaWidth + cfaHeight) ur uc i fr fc ∧
      interpolate data_out (cfaWidth + cfaHeight) (cfaWidth + cfaHeight) ur uc i fr fc
        ≤ 65535) ∧
    (∀ v : K,
      (∀ k, k ∈ stencil (cfaWidth + cfaHeight) (cfaWidth + cfaHeight) ur uc i →
        data_out k = v) →
      interpolate data_out (cfaWidth + cfaHeight) (cfaWidth + cfaHeight) ur uc i fr fc
        = v) := by
  obtain ⟨hr1, -⟩ := srcRow_bounds hstep hrow hcol
  obtain ⟨hc0, -⟩ := srcCol_bounds hstep hrow hcol
  have hr0 : 0 ≤ srcRow step cfaWidth row col := le_trans hstep.le hr1
  obtain ⟨hfr0, hfr1⟩ := fract_bounds hr0
  obtain ⟨hfc0, hfc1⟩ := fract_bounds hc0
  rw [← hur, ← hfr] at hfr0 hfr1
  rw [← huc, ← hfc] at hfc0 hfc1
  have hcw : 1 ≤ cfaWidth := pos_of_floor_div_pos step hcol
  have hch : 1 ≤ cfaHeight := pos_of_floor_div_pos step hrow
  have hw2 : 2 ≤ cfaWidth + cfaHeight := by omega
  have gfr : 0 ≤ 1 - fr := sub_nonneg.2 hfr1.le
  have gfc : 0 ≤ 1 - fc := sub_nonneg.2 hfc1.le
  refine ⟨⟨mul_nonneg gfr gfc, mul_nonneg gfr hfc0, mul_nonneg hfr0 gfc,
    mul_nonneg hfr0 hfc0, by ring⟩, ?_, ?_, ?_, ?_, ?_⟩
  · unfold interpolate
    ring
  · intro rotWidth rotHeight data_rot hrH hrW
    have hkeep' := hkeep
    rw [hur, huc] at hkeep'
    rw [derotate_kept_cell step data_out cfaWidth _ _ rotWidth rotHeight data_rot row col i
      hrH hrW hi hkeep', hfr, hfc, hur, huc]
  · apply interpolate_between data_out _ _ ur uc i hfr0 hfr1.le hfc0 hfc1.le
    intro k hk
    simp only [stencil, List.mem_cons, List.mem_singleton, List.not_mem_nil, or_false] at hk
    rcases hk with rfl | rfl | rfl | rfl <;> constructor <;> simp
  · intro dense hd
    apply interpolate_between data_out _ _ ur uc i hfr0 hfr1.le hfc0 hfc1.le
    intro k hk
    have hlt := stencil_lt hw2 hkeep hi k hk
    rw [hd, clampLoop_apply, if_pos hlt]
    exact clampSpec_range _
  · intro v hv
    have h0 := hv (stencilBase (cfaWidth + cfaHeight) (cfaWidth + cfaHeight) ur uc i)
      (by simp [stencil])
    have h1 := hv (stencilBase (cfaWidth + cfaHeight) (cfaWidth + cfaHeight) ur uc i + 1)
      (by simp [stencil])
    have h2 := hv (stencilBase (cfaWidth + cfaHeight) (cfaWidth + cfaHeight) ur uc i
      + (cfaWidth + cfaHeight)) (by simp [stencil])
    have h3 := hv (stencilBase (cfaWidth + cfaHeight) (cfaWidth + cfaHeight) ur uc i
      + (cfaWidth + cfaHeight) + 1) (by simp [stencil])
    unfold interpolate
    rw [h0, h1, h2, h3]
    ring

/-- C11 over the rationals at a 4 by 3 sensor, pixel `(1, 1)`, green plane, on a clamped
buffer: the cell of the pixel in the 5 by 4 rotated image lies in `[0, 65535]`; and over the
reals with `step = sqrt(0.5)` at a 1 by 2 sensor, pixel `(0, 0)`, red plane: the weights sum
to `1`. -/
theorem derotation_is_convex_blend_witness :
    ((0 < sampleExt.step ∧ 1 < ⌊((3 : Nat) : ℚ) / sampleExt.step⌋₊ ∧
        1 < ⌊((4 : Nat) : ℚ) / sampleExt.step⌋₊ ∧
        4 = ⌊srcRow sampleExt.step 4 1 1⌋₊ ∧ 1 = ⌊srcCol sampleExt.step 1 1⌋₊ ∧
        skipped (4 + 3) (4 + 3) 4 1 = false ∧ 1 < 3) ∧
      0 ≤ derotate sampleExt.step
          (clampLoop (3 * (4 + 3) * (4 + 3)) (fun k => (k : ℚ) * 1000 - 5000))
          4 (4 + 3) (4 + 3) 5 4 sampleExt.memRot (1 * 5 + 1 + 1 * 5 * 4) ∧
      derotate sampleExt.step
          (clampLoop (3 * (4 + 3) * (4 + 3)) (fun k => (k : ℚ) * 1000 - 5000))
          4 (4 + 3) (4 + 3) 5 4 sampleExt.memRot (1 * 5 + 1 + 1 * 5 * 4) ≤ 65535) ∧
    ((0 < Real.sqrt 0.5 ∧ 0 < ⌊((2 : Nat) : ℝ) / Real.sqrt 0.5⌋₊ ∧
        0 < ⌊((1 : Nat) : ℝ) / Real.sqrt 0.5⌋₊ ∧
        1 = ⌊srcRow (Real.sqrt 0.5) 1 0 0⌋₊ ∧ 0 = ⌊srcCol (Real.sqrt 0.5) 0 0⌋₊ ∧
        skipped (1 + 2) (1 + 2) 1 0 = false ∧ 0 < 3) ∧
      (1 - (srcRow (Real.sqrt 0.5) 1 0 0 - ((1 : Nat) : ℝ))) *
          (1 - (srcCol (Real.sqrt 0.5) 0 0 - ((0 : Nat) : ℝ)))
        + (1 - (srcRow (Real.sqrt 0.5) 1 0 0 - ((1 : Nat) : ℝ))) *
          (srcCol (Real.sqrt 0.5) 0 0 - ((0 : Nat) : ℝ))
        + (srcRow (Real.sqrt 0.5) 1 0 0 - ((1 : Nat) : ℝ)) *
          (1 - (srcCol (Real.sqrt 0.5) 0 0 - ((0 : Nat) : ℝ)))
        + (srcRow (Real.sqrt 0.5) 1 0 0 - ((1 : Nat) : ℝ)) *
          (srcCol (Real.sqrt 0.5) 0 0 - ((0 : Nat) : ℝ)) = 1) := by
  have hq : 0 < sampleExt.step := by norm_num [sampleExt]
  have hq3 : 1 < ⌊((3 : Nat) : ℚ) / sampleExt.step⌋₊ :=
    Nat.lt_of_lt_of_le (by decide : 1 < 4) (Nat.le_floor (by norm_num [sampleExt]))
  have hq4 : 1 < ⌊((4 : Nat) : ℚ) / sampleExt.step⌋₊ :=
    Nat.lt_of_lt_of_le (by decide : 1 < 5) (Nat.le_floor (by norm_num [sampleExt]))
  have hqr : 4 = ⌊srcRow sampleExt.step 4 1 1⌋₊ := by
    symm
    rw [Nat.floor_eq_iff (by norm_num [srcRow, sampleExt])]
    norm_num [srcRow, sampleExt]
  have hqc : 1 = ⌊srcCol sampleExt.step 1 1⌋₊ := by
    symm
    rw [Nat.floor_eq_iff (by norm_num [srcCol, sampleExt])]
    norm_num [srcCol, sampleExt]
  have hqk : skipped (4 + 3) (4 + 3) 4 1 = false := by decide
  have hs : 0 < Real.sqrt 0.5 := Real.sqrt_pos.2 (by norm_num)
  have hone : Real.sqrt 0.5 ≤ 1 := Real.sqrt_le_one.2 (by norm_num)
  have hf2 : 0 < ⌊((2 : Nat) : ℝ) / Real.sqrt 0.5⌋₊ := by
    rw [Nat.floor_pos, le_div_iff₀ hs, one_mul]
    exact hone.trans (by norm_num)
  have hf1 : 0 < ⌊((1 : Nat) : ℝ) / Real.sqrt 0.5⌋₊ := by
    rw [Nat.floor_pos, le_div_iff₀ hs]
    simpa using hone
  have hrr : 1 = ⌊srcRow (Real.sqrt 0.5) 1 0 0⌋₊ := by
    simp [srcRow]
  have hrc : 0 = ⌊srcCol (Real.sqrt 0.5) 0 0⌋₊ := by
    simp [srcCol]
  have hrk : skipped (1 + 2) (1 + 2) 1 0 = false := by decide
  have hQ := derotation_is_convex_blend sampleExt.step hq
    (clampLoop (3 * (4 + 3) * (4 + 3)) (fun k => (k : ℚ) * 1000 - 5000))
    4 3 1 1 1 4 1 _ _ hq3 hq4 hqr hqc rfl rfl hqk (by decide)
  have hR := derotation_is_convex_blend (Real.sqrt 0.5) hs (fun k => (k : ℝ))
    1 2 0 0 0 1 0 _ _ hf2 hf1 hrr hrc rfl rfl hrk (by decide)
  refine ⟨⟨⟨hq, hq3, hq4, hqr, hqc, hqk, by decide⟩, ?_, ?_⟩,
    ⟨hs, hf2, hf1, hrr, hrc, hrk, by decide⟩, hR.1.2.2.2.2⟩
  · rw [hQ.2.2.1 5 4 sampleExt.memRot (by decide) (by decide)]
    exact (hQ.2.2.2.2.1 _ rfl).1
  · rw [hQ.2.2.1 5 4 sampleExt.memRot (by decide) (by decide)]
    exact (hQ.2.2.2.2.1 _ rfl).2

end FujiExr
